import Mathlib
set_option maxHeartbeats 1000000

namespace Callao

/-! Shallow embedding of the Callao file server (src/server/callao_server.py).

Paths are Windows (ntpath) paths: the server shares a drive root such as
G:\ and every client-supplied virtual path is resolved with
os.path.join, os.path.normpath and a startswith check against the drive
root.  Byte strings and character strings are both modelled as List Char
(the payloads relevant to the claims are ASCII, where Python's utf-8
decode with errors ignored is the identity on this model). -/

/-- Windows path separator test: ntpath has sep backslash and altsep slash. -/
def isSep (c : Char) : Bool := c == '\\' || c == '/'

/-- Models Python str.lstrip applied to the single character slash,
as in path.lstrip used by the file handlers before os.path.join. -/
def lstripSlash : List Char → List Char
  | [] => []
  | c :: rest => if c == '/' then lstripSlash rest else c :: rest

/-- Drive component of a parsed Windows path, following ntpath.splitroot:
either no drive, a one-letter drive such as G: , or a UNC-style drive
(a path beginning with two separators, e.g. a server share or a device
path).  A UNC path is carried opaquely as the characters after the two
leading separators: ntpath.join returns such a second argument unchanged
and every theorem below only uses the fact that its rendering keeps the
two leading separators, which real normpath also preserves. -/
inductive WDrive
  | nodrive : WDrive
  | letter : Char → WDrive
  | unc : List Char → WDrive
deriving DecidableEq

/-- Parsed form of a Windows path string: drive, whether the path part is
rooted (begins with a separator right after the drive), and the
separator-split components.  This is the representation ntpath.join and
ntpath.normpath work with internally via splitroot and split. -/
structure NTParsed where
  drive : WDrive
  root : Bool
  segs : List String
deriving DecidableEq

/-- Splits a character list on path separators, keeping empty components,
exactly like str.split over the separator after altsep replacement. -/
def splitSegsAux (cur : List Char) : List Char → List String
  | [] => [String.mk cur.reverse]
  | c :: rest =>
      if isSep c then String.mk cur.reverse :: splitSegsAux [] rest
      else splitSegsAux (c :: cur) rest

def splitSegs (cs : List Char) : List String := splitSegsAux [] cs

/-- Parses a raw path string into drive, root flag and components,
following ntpath.splitroot: a path starting with two separators is a
UNC-style drive; a path whose second character is a colon has a
one-letter drive, rooted when a separator follows; otherwise no drive. -/
def parsePath (cs : List Char) : NTParsed :=
  match cs with
  | c1 :: c2 :: rest =>
      if isSep c1 then
        if isSep c2 then ⟨WDrive.unc rest, false, []⟩
        else ⟨WDrive.nodrive, true, splitSegs (c2 :: rest)⟩
      else if c2 == ':' then
        match rest with
        | c3 :: rest2 =>
            if isSep c3 then ⟨WDrive.letter c1, true, splitSegs rest2⟩
            else ⟨WDrive.letter c1, false, splitSegs rest⟩
        | [] => ⟨WDrive.letter c1, false, splitSegs []⟩
      else ⟨WDrive.nodrive, false, splitSegs cs⟩
  | [c1] =>
      if isSep c1 then ⟨WDrive.nodrive, true, splitSegs []⟩
      else ⟨WDrive.nodrive, false, splitSegs [c1]⟩
  | [] => ⟨WDrive.nodrive, false, splitSegs []⟩

/-- The parsed form of the configured drive root, the string built by the
server as drive letter, colon, backslash. -/
def rootParsed (d : Char) : NTParsed := ⟨WDrive.letter d, true, []⟩

/-- ntpath.join of two parsed paths.  Mirrors the reference algorithm: a
second path with a root replaces the path part (keeping the first drive
only when the second has none); a drive-relative second path with a
different drive (case-insensitive) discards the first path entirely; a
same-drive or driveless relative second path is appended. -/
def joinP (a b : NTParsed) : NTParsed :=
  match b.drive with
  | WDrive.unc _ => b
  | WDrive.letter c =>
      if b.root then ⟨WDrive.letter c, true, b.segs⟩
      else
        match a.drive with
        | WDrive.letter ac =>
            if c.toLower == ac.toLower then ⟨WDrive.letter c, a.root, a.segs ++ b.segs⟩
            else b
        | _ => b
  | WDrive.nodrive =>
      if b.root then ⟨a.drive, true, b.segs⟩
      else ⟨a.drive, a.root, a.segs ++ b.segs⟩

/-- One step of ntpath.normpath component processing: empty and dot
components are dropped, dotdot pops the previous component unless the
stack is empty (dropped when rooted, kept when relative) or the previous
component is itself a dotdot.  The accumulator is kept reversed. -/
def normStep (rt : Bool) (acc : List String) (s : String) : List String :=
  if s = "" ∨ s = "." then acc
  else if s = ".." then
    match acc with
    | [] => if rt then [] else [".."]
    | a :: t => if a = ".." then ".." :: a :: t else t
  else s :: acc

def normSegs (rt : Bool) (segs : List String) : List String :=
  (segs.foldl (normStep rt) []).reverse

/-- ntpath.normpath on a parsed path: component normalisation on the path
part, drive and root preserved.  A UNC-style drive is carried unchanged:
real normpath keeps the leading double separator in every case (and
returns device-prefix paths entirely unchanged), which is the only fact
the theorems use about this branch. -/
def normpathP (p : NTParsed) : NTParsed :=
  match p.drive with
  | WDrive.unc r => ⟨WDrive.unc r, p.root, p.segs⟩
  | _ => ⟨p.drive, p.root, normSegs p.root p.segs⟩

def renderDrive : WDrive → List Char
  | WDrive.nodrive => []
  | WDrive.letter c => [c, ':']
  | WDrive.unc r => '\\' :: '\\' :: r

def renderSegs : List String → List Char
  | [] => []
  | [s] => s.data
  | s :: rest => s.data ++ '\\' :: renderSegs rest

/-- The string a parsed path prints as after normpath (separator is the
backslash), used by the startswith security check. -/
def render (p : NTParsed) : List Char :=
  renderDrive p.drive ++ (if p.root then ['\\'] else []) ++ renderSegs p.segs

/-- Boolean sequence-prefix test, the model of Python str.startswith. -/
def isPre : List Char → List Char → Bool
  | [], _ => true
  | _ :: _, [] => false
  | a :: as, b :: bs => a == b && isPre as bs

/-- The handlers' security check: full_path.startswith(drive_path) where
drive_path is the three characters letter, colon, backslash. -/
def startswith_drive (d : Char) (p : NTParsed) : Bool :=
  isPre [d, ':', '\\'] (render p)

/-- The path resolution pipeline shared by the list, download, upload,
create-folder, delete and rename handlers:
os.path.normpath(os.path.join(drive_path, vpath.lstrip(slash))). -/
def resolveFull (d : Char) (vpath : List Char) : NTParsed :=
  normpathP (joinP (rootParsed d) (parsePath (lstripSlash vpath)))

/-- The full check as the handlers perform it, on the canonicalized form. -/
def securityCheck (d : Char) (vpath : List Char) : Bool :=
  startswith_drive d (resolveFull d vpath)

/-- os.path.dirname on a canonical parsed path: drop the last component. -/
def dirnameP (p : NTParsed) : NTParsed :=
  ⟨p.drive, p.root, p.segs.dropLast⟩

/-- The resolved path is the configured root itself or a descendant of it:
same one-letter drive, rooted, and canonical components only (no empty,
dot or dotdot component), so the denoted file lies in the directory tree
below the drive root. -/
def underRoot (d : Char) (p : NTParsed) : Prop :=
  p.drive = WDrive.letter d ∧ p.root = true ∧
    ∀ s ∈ p.segs, s ≠ "" ∧ s ≠ "." ∧ s ≠ ".."

/-- Invariant satisfied by the components that normStep accumulates. -/
def SegOK (rt : Bool) (s : String) : Prop :=
  s ≠ "" ∧ s ≠ "." ∧ (rt = true → s ≠ "..")

/-! Session model.  CallaoServer keeps sessions in two layers: the
in-memory dict self.sessions and the sessions table of the SQLite
database, both keyed by the opaque token.  Dicts and tables are modelled
as association lists with the dict operations below; timestamps are
naturals.  The random token and the current time are inputs. -/

def alookup {α β : Type} [DecidableEq α] : List (α × β) → α → Option β
  | [], _ => Option.none
  | (k0, v0) :: rest, k => if k0 = k then some v0 else alookup rest k

/-- Dict assignment: replace the binding in place or append a new one. -/
def upsert {α β : Type} [DecidableEq α] : List (α × β) → α → β → List (α × β)
  | [], k, v => [(k, v)]
  | (k0, v0) :: rest, k, v =>
      if k0 = k then (k, v) :: rest else (k0, v0) :: upsert rest k v

/-- Dict deletion of a key (keys are unique in a dict). -/
def eraseKey {α β : Type} [DecidableEq α] : List (α × β) → α → List (α × β)
  | [], _ => []
  | (k0, v0) :: rest, k => if k0 = k then rest else (k0, v0) :: eraseKey rest k

structure Session where
  user_id : Nat
  expires_at : Nat
  ip_address : String
deriving DecidableEq

structure ServerState where
  sessions : List (String × Session)
  dbSessions : List (String × Session)
deriving DecidableEq

structure User where
  id : Nat
  username : String
  password_hash : String
  email : String
  role : String
  is_active : Bool
deriving DecidableEq

/-- CallaoServer.create_session: computes the expiry, deletes the user's
previous rows from the sessions table (DELETE FROM sessions WHERE
user_id = ?), inserts the new row, and stores the new token in the
in-memory dict.  Note that only the new token is written to the memory
cache; no existing cache entry is removed. -/
def create_session (st : ServerState) (user_id : Nat) (ip_address : String)
    (token : String) (now timeout : Nat) : ServerState × String :=
  let expires_at := now + timeout
  let db1 := st.dbSessions.filter (fun kv => decide (kv.2.user_id ≠ user_id))
  let db2 := db1 ++ [(token, ⟨user_id, expires_at, ip_address⟩)]
  ({ sessions := upsert st.sessions token ⟨user_id, expires_at, ip_address⟩,
     dbSessions := db2 }, token)

/-- CallaoServer.cleanup_expired_sessions: the table delete uses a strict
comparison (DELETE WHERE expires_at < now) while the cache sweep removes
entries with now greater than or equal to the expiry. -/
def cleanup_expired_sessions (st : ServerState) (now : Nat) : ServerState :=
  { sessions := st.sessions.filter (fun kv => decide (now < kv.2.expires_at)),
    dbSessions := st.dbSessions.filter (fun kv => decide (now ≤ kv.2.expires_at)) }

/-- The database half of CallaoServer.validate_session: look the token up
in the sessions table; a live row is returned and recached, an expired
row triggers cleanup_expired_sessions, an absent row fails. -/
def validate_db_check (st : ServerState) (token : String) (now : Nat) :
    Option Session × ServerState :=
  match alookup st.dbSessions token with
  | some s =>
      if now < s.expires_at then
        (some s, { st with sessions := upsert st.sessions token s })
      else (Option.none, cleanup_expired_sessions st now)
  | Option.none => (Option.none, st)

/-- CallaoServer.validate_session: the empty token fails immediately; the
memory cache is checked first (a live hit returns without touching the
database, an expired hit is deleted from the cache); then the database
is consulted. -/
def validate_session (st : ServerState) (token : String) (now : Nat) :
    Option Session × ServerState :=
  if token = "" then (Option.none, st)
  else
    match alookup st.sessions token with
    | some s =>
        if now < s.expires_at then (some s, st)
        else validate_db_check { st with sessions := eraseKey st.sessions token } token now
    | Option.none => validate_db_check st token now

/-- CallaoServer.get_auth_user: requires the Authorization header to start
with the Bearer prefix, validates the token (the seven characters of the
prefix are stripped), loads the owning user row and requires it active.
A missing header behaves like the empty string, which fails the prefix
test. -/
def get_auth_user (st : ServerState) (users : List User) (now : Nat)
    (authHeader : Option (List Char)) : Option User × ServerState :=
  match authHeader with
  | Option.none => (Option.none, st)
  | some h =>
      if isPre ("Bearer ".data) h then
        let token := String.mk (h.drop 7)
        let vres := validate_session st token now
        match vres.1 with
        | Option.none => (Option.none, vres.2)
        | some s =>
            match users.find? (fun u => u.id == s.user_id) with
            | some u => if u.is_active then (some u, vres.2) else (Option.none, vres.2)
            | Option.none => (Option.none, vres.2)
      else (Option.none, st)

/-- CallaoServer.require_auth: authentication, then the optional exact
role comparison. -/
def require_auth (st : ServerState) (users : List User) (now : Nat)
    (authHeader : Option (List Char)) (required_role : Option String) :
    Option User × Option String × ServerState :=
  let gres := get_auth_user st users now authHeader
  match gres.1 with
  | Option.none => (Option.none, some "Authentication required", gres.2)
  | some u =>
      match required_role with
      | some r =>
          if u.role = r then (some u, Option.none, gres.2)
          else (Option.none, some ("Access denied. " ++ r ++ " role required"), gres.2)
      | Option.none => (some u, Option.none, gres.2)

/-- The state after two successive create_session calls for user 1: the
first call stores tokenA in the table and the cache, the second deletes
user 1's table rows (including tokenA) and stores tokenB, but leaves
tokenA in the memory cache. -/
def twoSessionsState : ServerState :=
  (create_session
    ((create_session ⟨[], []⟩ 1 "addr" "tokenA" 0 100).1) 1 "addr" "tokenB" 0 100).1

/-! Multipart decoder.  CallaoRequestHandler.parse_multipart_form_data
reads the whole body and splits it with bytes.split on the literal
delimiter built as two dashes followed by the boundary; each piece with
a blank line is split once at the first CRLF CRLF into a header block
and a content block, the content block is rstripped over the character
set containing CR, LF and the dash, and the Content-Disposition line is
scanned for the quoted name and filename.  Bytes are modelled as
characters (the decode step with errors ignored is the identity on this
model); the boundary extraction from the Content-Type header, which
precedes this logic, is taken as an input. -/

/-- Python bytes containment test (the in operator): some position of the
haystack starts with the needle. -/
def containsSub (pat : List Char) : List Char → Bool
  | [] => isPre pat []
  | c :: rest => isPre pat (c :: rest) || containsSub pat rest

/-- Python bytes.split on a nonempty separator: leftmost-first
non-overlapping occurrences.  The fuel argument bounds the scan and is
always called with the length of the input, so the exhaustion branch is
unreachable; each step consumes at least one character. -/
def splitOnSubAux (sep : List Char) : Nat → List Char → List Char → List (List Char)
  | _, acc, [] => [acc.reverse]
  | 0, acc, l => [acc.reverse ++ l]
  | fuel + 1, acc, c :: rest =>
      if isPre sep (c :: rest) then
        acc.reverse :: splitOnSubAux sep fuel [] (rest.drop (sep.length - 1))
      else splitOnSubAux sep fuel (c :: acc) rest

def splitOnSub (sep body : List Char) : List (List Char) :=
  splitOnSubAux sep body.length [] body

/-- Python bytes.split with maxsplit one, for the found case used by the
decoder (the caller has already checked containment); when the separator
is absent the whole input is returned as the first component. -/
def splitOnceAux (sep : List Char) : Nat → List Char → List Char → List Char × List Char
  | _, acc, [] => (acc.reverse, [])
  | 0, acc, l => (acc.reverse ++ l, [])
  | fuel + 1, acc, c :: rest =>
      if isPre sep (c :: rest) then (acc.reverse, rest.drop (sep.length - 1))
      else splitOnceAux sep fuel (c :: acc) rest

def splitOnce (sep l : List Char) : List Char × List Char :=
  splitOnceAux sep l.length [] l

/-- Python bytes.rstrip with a set of characters: trailing characters
drawn from the set are removed. -/
def rstripSet (set : List Char) (l : List Char) : List Char :=
  (l.reverse.dropWhile (fun c => set.contains c)).reverse

/-- Python str.find for a substring, returning the first index. -/
def findSubAux (pat : List Char) : List Char → Nat → Option Nat
  | [], i => if isPre pat [] then some i else Option.none
  | c :: rest, i =>
      if isPre pat (c :: rest) then some i else findSubAux pat rest (i + 1)

def findSub (pat l : List Char) : Option Nat := findSubAux pat l 0

/-- The quoted-value extraction of the decoder: find the marker, skip it,
take until the closing double quote (when the closing quote is missing
Python slices to the penultimate character instead; the decoder's inputs
carry the quote). -/
def extractQuoted (marker line : List Char) : Option String :=
  match findSub marker line with
  | some i =>
      some (String.mk ((line.drop (i + marker.length)).takeWhile (fun c => c != '"')))
  | Option.none => Option.none

/-- The header-block scan of the decoder: split into lines on CRLF, and
on every Content-Disposition line record the quoted name and filename
values when present (later lines overwrite earlier ones). -/
def parseDisposition (headers_text : List Char) : Option String × Option String :=
  (splitOnSub ("\r\n".data) headers_text).foldl
    (fun acc line =>
      if isPre ("Content-Disposition:".data) line then
        (match extractQuoted ("name=\"".data) line with
         | some v => some v
         | Option.none => acc.1,
         match extractQuoted ("filename=\"".data) line with
         | some v => some v
         | Option.none => acc.2)
      else acc)
    (Option.none, Option.none)

structure FilePart where
  filename : String
  content : List Char
deriving DecidableEq

/-- Processing of one piece produced by the boundary split: empty and
terminal pieces are skipped, a piece without a blank line is skipped,
otherwise the piece is split once at the first CRLF CRLF, the content is
rstripped over CR, LF and dash, and the part is recorded as a file when
a filename is present, as a form field otherwise. -/
def processPart (acc : List (String × FilePart) × List (String × String))
    (part : List Char) : List (String × FilePart) × List (String × String) :=
  if part = [] ∨ part = ("--\r\n".data) ∨ part = ("--".data) then acc
  else if containsSub ("\r\n\r\n".data) part = false then acc
  else
    let hc := splitOnce ("\r\n\r\n".data) part
    let content := rstripSet ['\r', '\n', '-'] hc.2
    let disp := parseDisposition hc.1
    match disp.1 with
    | some fname =>
        match disp.2 with
        | some fn => (upsert acc.1 fname ⟨fn, content⟩, acc.2)
        | Option.none => (acc.1, upsert acc.2 fname (String.mk content))
    | Option.none => acc

/-- CallaoRequestHandler.parse_multipart_form_data, from the point where
the boundary has been extracted: body.split on the delimiter, then the
per-piece processing. -/
def parse_multipart_form_data (boundary body : List Char) :
    List (String × FilePart) × List (String × String) :=
  let boundary_bytes := '-' :: '-' :: boundary
  (splitOnSub boundary_bytes body).foldl processPart ([], [])

/-- The concrete multipart body whose file part content contains the
literal delimiter: boundary BB, one file part named file with filename
a.txt and content X--BBY. -/
def c4body : List Char :=
  ("--BB\r\nContent-Disposition: form-data; name=\"file\"; filename=\"a.txt\"" ++
    "\r\n\r\nX--BBY\r\n--BB--").data

/-! Request handler models.  Each handler of CallaoRequestHandler is
modelled as a function from its authentication result (the user/error
pair produced by require_auth or get_auth_user), its parsed body fields
and a filesystem oracle to the wire response and the list of effects it
performs.  The filesystem oracle maps a resolved path to none (absent),
some false (a file) or some true (a directory).  The logExc input is the
exception raised by the log_activity database insert, none when the
insert succeeds: the insert runs inside each handler's try block, so an
exception there is caught by the handler's generic except clause after
the primary effect has already happened. -/

structure Resp where
  status : Nat
  error : Option String
deriving DecidableEq

inductive Effect
  | deleteFx : NTParsed → Effect
  | renameFx : NTParsed → NTParsed → Effect
  | writeFx : NTParsed → List Char → Effect
  | mkdirFx : NTParsed → Effect
  | dbWriteFx : String → Effect
  | logFx : String → Effect
  | restartFx : Effect
deriving DecidableEq

def errResp (msg : String) (code : Nat) : Resp := ⟨code, some msg⟩

def okResp : Resp := ⟨200, Option.none⟩

/-- Python str.strip with no argument: whitespace off both ends. -/
def pyWS (c : Char) : Bool :=
  c == ' ' || c == '\t' || c == '\n' || c == '\r' || c == '\x0b' || c == '\x0c'

def pyStrip (l : List Char) : List Char :=
  ((l.dropWhile pyWS).reverse.dropWhile pyWS).reverse

/-- handle_list_files: authentication, the path argument resolved through
the sandbox pipeline (the empty or bare-slash path lists the drive
root), the startswith check, existence, then the listing (whose per-item
payload carries no effect) and the activity record. -/
def handle_list_files (d : Char) (fs : NTParsed → Option Bool)
    (auth : Option User) (authErr : Option String) (pathParam : String) :
    Resp × List Effect :=
  match auth with
  | Option.none => (errResp (authErr.getD "Authentication required") 401, [])
  | some _ =>
      let full := if pathParam ≠ "" ∧ pathParam ≠ "/" then resolveFull d pathParam.data
                  else normpathP (rootParsed d)
      if startswith_drive d full = false then (errResp "Access denied" 403, [])
      else if (fs full).isNone then (errResp "Path not found" 404, [])
      else (okResp, [Effect.logFx "list_directory"])

/-- handle_download, from the point where the URL path has been
percent-decoded: sandbox resolution, the startswith check, then the
missing-or-directory test, then the streamed response and the activity
record. -/
def handle_download (d : Char) (fs : NTParsed → Option Bool)
    (auth : Option User) (authErr : Option String) (file_path : List Char) :
    Resp × List Effect :=
  match auth with
  | Option.none => (errResp (authErr.getD "Authentication required") 401, [])
  | some _ =>
      let full := resolveFull d file_path
      if startswith_drive d full = false then (errResp "Access denied" 403, [])
      else if (fs full).isNone || (fs full == some true) then
        (errResp "File not found" 404, [])
      else (okResp, [Effect.logFx "download"])

/-- handle_delete: path required, sandbox resolution and check, existence,
then the recursive or single removal followed by the activity record
inside the same try block. -/
def handle_delete (d : Char) (fs : NTParsed → Option Bool) (logExc : Option String)
    (auth : Option User) (authErr : Option String) (path : String) :
    Resp × List Effect :=
  match auth with
  | Option.none => (errResp (authErr.getD "Authentication required") 401, [])
  | some _ =>
      if path = "" then (errResp "Path required" 400, [])
      else
        let full := resolveFull d path.data
        if startswith_drive d full = false then (errResp "Access denied" 403, [])
        else if (fs full).isNone then (errResp "Path not found" 404, [])
        else
          match logExc with
          | Option.none => (okResp, [Effect.deleteFx full, Effect.logFx "delete"])
          | some e => (errResp ("Failed to delete: " ++ e) 500, [Effect.deleteFx full])

/-- handle_rename: both fields required (the new name is stripped), only
the source is resolved through the sandbox; the target is the raw
os.path.join of the source's parent directory with the client-supplied
new name, with no separator check and no further sandbox check. -/
def handle_rename (d : Char) (fs : NTParsed → Option Bool) (logExc : Option String)
    (auth : Option User) (authErr : Option String) (old_path new_name_raw : String) :
    Resp × List Effect :=
  match auth with
  | Option.none => (errResp (authErr.getD "Authentication required") 401, [])
  | some _ =>
      let new_name := String.mk (pyStrip new_name_raw.data)
      if old_path = "" ∨ new_name = "" then
        (errResp "Old path and new name required" 400, [])
      else
        let old_full := resolveFull d old_path.data
        if startswith_drive d old_full = false then (errResp "Access denied" 403, [])
        else if (fs old_full).isNone then (errResp "Path not found" 404, [])
        else
          let new_full := joinP (dirnameP old_full) (parsePath new_name.data)
          match logExc with
          | Option.none =>
              (okResp, [Effect.renameFx old_full new_full, Effect.logFx "rename"])
          | some e =>
              (errResp ("Failed to rename: " ++ e) 500,
                [Effect.renameFx old_full new_full])

/-- handle_create_folder: name required (stripped), the folder path is the
join of the drive root, the path argument and the name, normalised and
checked; an existing target raises FileExistsError mapped to a 400;
otherwise makedirs runs and the activity record follows in the same try
block. -/
def handle_create_folder (d : Char) (fs : NTParsed → Option Bool) (logExc : Option String)
    (auth : Option User) (authErr : Option String) (path name_raw : String) :
    Resp × List Effect :=
  match auth with
  | Option.none => (errResp (authErr.getD "Authentication required") 401, [])
  | some _ =>
      let name := String.mk (pyStrip name_raw.data)
      if name = "" then (errResp "Folder name required" 400, [])
      else
        let base := if path ≠ "" ∧ path ≠ "/" then
                      joinP (rootParsed d) (parsePath (lstripSlash path.data))
                    else rootParsed d
        let full := normpathP (joinP base (parsePath name.data))
        if startswith_drive d full = false then (errResp "Access denied" 403, [])
        else if (fs full).isSome then (errResp "Folder already exists" 400, [])
        else
          match logExc with
          | Option.none => (okResp, [Effect.mkdirFx full, Effect.logFx "create_folder"])
          | some e =>
              (errResp ("Failed to create folder: " ++ e) 500, [Effect.mkdirFx full])

/-- handle_logout: looks the user up, and when a valid Bearer token is
presented deletes it from the sessions table and the memory cache and
records the logout; in every case, valid token or not, the response is
the success object. -/
def handle_logout (st : ServerState) (users : List User) (now : Nat)
    (authHeader : Option (List Char)) : Resp × List Effect × ServerState :=
  let gres := get_auth_user st users now authHeader
  match gres.1 with
  | some _u =>
      match authHeader with
      | some h =>
          if isPre ("Bearer ".data) h then
            let token := String.mk (h.drop 7)
            (okResp, [Effect.logFx "logout"],
              { sessions := eraseKey gres.2.sessions token,
                dbSessions := eraseKey gres.2.dbSessions token })
          else (okResp, [], gres.2)
      | Option.none => (okResp, [], gres.2)
  | Option.none => (okResp, [], gres.2)

/-- Python str.split on a single character, no maxsplit. -/
def splitOnCharAux (sep : Char) (cur : List Char) : List Char → List (List Char)
  | [] => [cur.reverse]
  | c :: rest =>
      if c == sep then cur.reverse :: splitOnCharAux sep [] rest
      else splitOnCharAux sep (c :: cur) rest

def splitOnChar (sep : Char) (l : List Char) : List (List Char) :=
  splitOnCharAux sep [] l

/-- CallaoServer.verify_password: the stored hash is unpacked as
salt colon hexdigest; the tuple unpacking of split succeeds only for
exactly two pieces, and any other shape (no colon, several colons)
raises inside the try and the bare except returns False.  The pbkdf2
digest (as a hex string) is an input function. -/
def verify_password (pbkdf2hex : List Char → List Char → List Char)
    (password password_hash : List Char) : Bool :=
  match splitOnChar ':' password_hash with
  | [salt, hash_hex] => pbkdf2hex password salt == hash_hex
  | _ => false

/-- handle_login: the username is stripped, both fields are required, the
user row is looked up by username; the row must exist, be active and
pass verify_password, otherwise a login_failed activity entry with a
null user id is recorded and a 401 with Invalid credentials is sent.  On
success a session is created, last_login updated and the login logged. -/
def handle_login (st : ServerState) (users : List User) (now timeout : Nat)
    (ip : String) (newToken : String)
    (pbkdf2hex : List Char → List Char → List Char)
    (uname pwd : String) : Resp × List Effect × ServerState :=
  let username := String.mk (pyStrip uname.data)
  if username = "" ∨ pwd = "" then
    (errResp "Username and password required" 400, [], st)
  else
    match users.find? (fun u => u.username == username) with
    | some row =>
        if row.is_active && verify_password pbkdf2hex pwd.data row.password_hash.data then
          let st2 := (create_session st row.id ip newToken now timeout).1
          (okResp, [Effect.dbWriteFx "update last_login", Effect.logFx "login"], st2)
        else
          (errResp "Invalid credentials" 401, [Effect.logFx "login_failed"], st)
    | Option.none =>
        (errResp "Invalid credentials" 401, [Effect.logFx "login_failed"], st)

/-- handle_storage_stats: authenticated read of drive usage, no effect
and no activity record. -/
def handle_storage_stats (auth : Option User) (authErr : Option String) :
    Resp × List Effect :=
  match auth with
  | Option.none => (errResp (authErr.getD "Authentication required") 401, [])
  | some _ => (okResp, [])

/-- handle_server_restart: admin only; the activity record is written
first, then the restart collaborator runs (refusing when the config
disables it). -/
def handle_server_restart (restartEnabled : Bool)
    (auth : Option User) (authErr : Option String) : Resp × List Effect :=
  match auth with
  | Option.none => (errResp (authErr.getD "Admin access required") 401, [])
  | some _ =>
      if restartEnabled then (okResp, [Effect.logFx "server_restart", Effect.restartFx])
      else (errResp "Remote restart is disabled" 500, [Effect.logFx "server_restart"])

/-- handle_get_users: admin-only read of the users table. -/
def handle_get_users (auth : Option User) (authErr : Option String) :
    Resp × List Effect :=
  match auth with
  | Option.none => (errResp (authErr.getD "Admin access required") 401, [])
  | some _ => (okResp, [])

/-- handle_create_user: admin only; username stripped and both fields
required; a duplicate username raises IntegrityError mapped to 400. -/
def handle_create_user (dupUsername : Bool)
    (auth : Option User) (authErr : Option String)
    (username password : String) : Resp × List Effect :=
  match auth with
  | Option.none => (errResp (authErr.getD "Admin access required") 401, [])
  | some _ =>
      if String.mk (pyStrip username.data) = "" ∨ password = "" then
        (errResp "Username and password required" 400, [])
      else if dupUsername then (errResp "Username already exists" 400, [])
      else (okResp, [Effect.dbWriteFx "insert user", Effect.logFx "create_user"])

/-- handle_update_user: admin only; the dynamic field update and the
activity record. -/
def handle_update_user (auth : Option User) (authErr : Option String)
    (_user_id : String) : Resp × List Effect :=
  match auth with
  | Option.none => (errResp (authErr.getD "Admin access required") 401, [])
  | some _ => (okResp, [Effect.dbWriteFx "update user", Effect.logFx "update_user"])

/-- handle_delete_user: admin only; deactivates the row, deletes the
user's sessions from the table and the cache, and records the action. -/
def handle_delete_user (auth : Option User) (authErr : Option String)
    (_user_id : String) : Resp × List Effect :=
  match auth with
  | Option.none => (errResp (authErr.getD "Admin access required") 401, [])
  | some _ =>
      (okResp, [Effect.dbWriteFx "deactivate user",
        Effect.dbWriteFx "delete sessions for user", Effect.logFx "delete_user"])

/-- handle_change_password: admin only; both fields required; rewrites the
hash, revokes the user's sessions in both layers and records the
action. -/
def handle_change_password (auth : Option User) (authErr : Option String)
    (user_id : Option Nat) (new_password : String) : Resp × List Effect :=
  match auth with
  | Option.none => (errResp (authErr.getD "Admin access required") 401, [])
  | some _ =>
      if user_id.isNone ∨ new_password = "" then
        (errResp "User ID and new password required" 400, [])
      else
        (okResp, [Effect.dbWriteFx "update password_hash",
          Effect.dbWriteFx "delete sessions for user", Effect.logFx "change_password"])

/-- handle_get_activity_logs: authenticated read of the audit trail. -/
def handle_get_activity_logs (auth : Option User) (authErr : Option String) :
    Resp × List Effect :=
  match auth with
  | Option.none => (errResp (authErr.getD "Authentication required") 401, [])
  | some _ => (okResp, [])

/-! Upload name disambiguation.  handle_upload sanitizes the client
filename to its base component, and when the destination name exists it
runs a counter loop: candidate names are base underscore n extension for
n from one upward until a free name is found, and the file is then
written under the final name.  The destination directory is modelled as
an association list from names to contents; os.path.exists on a joined
destination name is membership of the listing.  The while loop
terminates because the directory holds finitely many names, so the
model drives it with fuel one larger than the listing, which the
pigeonhole argument below shows is always enough. -/

/-- Index of the last character satisfying p, as Python str.rfind. -/
def lastIdxAux (p : Char → Bool) : List Char → Nat → Option Nat → Option Nat
  | [], _, best => best
  | c :: rest, i, best => lastIdxAux p rest (i + 1) (if p c then some i else best)

def lastIdx (p : Char → Bool) (l : List Char) : Option Nat :=
  lastIdxAux p l 0 Option.none

/-- os.path.splitext: split at the last dot when it comes after the last
separator and the characters between them are not all dots (so a purely
dotted base keeps its dots and has no extension). -/
def splitext (p : List Char) : List Char × List Char :=
  match lastIdx (fun c => c == '.') p with
  | Option.none => (p, [])
  | some di =>
      let start := match lastIdx isSep p with
                   | some s => s + 1
                   | Option.none => 0
      if di < start then (p, [])
      else
        let between := (p.drop start).take (di - start)
        if between.all (fun c => c == '.') then (p, [])
        else (p.take di, p.drop di)

/-- Decimal rendering of a natural number, as Python str on the counter.
Fuel-driven so that concrete candidates evaluate; natStr supplies fuel
equal to the number, which the correctness lemma shows is enough. -/
def natStrAux : Nat → Nat → List Char
  | _, 0 => []
  | 0, _ + 1 => []
  | f + 1, n + 1 => natStrAux f ((n + 1) / 10) ++ [Nat.digitChar ((n + 1) % 10)]

def natStr (n : Nat) : List Char := natStrAux n n

/-- The candidate name of one loop iteration: base underscore counter
extension. -/
def candName (base ext : List Char) (n : Nat) : List Char :=
  base ++ '_' :: (natStr n ++ ext)

/-- os.path.exists of a name inside the destination listing. -/
def dirHas (dir : List (List Char × List Char)) (name : List Char) : Bool :=
  dir.any (fun kv => kv.1 == name)

/-- The while loop of handle_upload: try candidates from the given
counter until the existence test fails. -/
def next_free_name (ex : List Char → Bool) (base ext : List Char) :
    Nat → Nat → List Char
  | 0, n => candName base ext n
  | fuel + 1, n =>
      let cand := candName base ext n
      if ex cand then next_free_name ex base ext fuel (n + 1) else cand

/-- The stored name handle_upload picks: the sanitized filename when it
is free, otherwise the first free disambiguated candidate from one
upward. -/
def upload_dest_name (dir : List (List Char × List Char)) (filename : List Char) :
    List Char :=
  if dirHas dir filename then
    let se := splitext filename
    next_free_name (dirHas dir) se.1 se.2 (dir.length + 1) 1
  else filename

/-- The write at the end of handle_upload: the content is stored under
the chosen destination name (fresh, so the write creates the entry). -/
def upload_store (dir : List (List Char × List Char)) (filename content : List Char) :
    List (List Char × List Char) × List Char :=
  let dest := upload_dest_name dir filename
  ((dest, content) :: dir, dest)

/-- ntpath.basename via the parsed components: the part after the last
separator (empty for a name ending in a separator; a UNC-drive argument
is carried opaquely and yields the empty basename, a branch no claim
exercises). -/
def ntBasename (cs : List Char) : String :=
  ((parsePath cs).segs.getLast?).getD ""

/-- handle_upload: authentication, the file part and its filename
required, the filename sanitized to its base component, the size bound
checked before writing, the destination directory resolved through the
sandbox pipeline and checked together with the raw joined destination
file, the directory required to exist, then the collision loop and the
write and the activity record.  A log_activity failure inside this
handler's except clause would re-raise while logging the error entry, so
the failing-audit path is analysed on the delete, rename and
create-folder handlers instead. -/
def handle_upload (d : Char) (fsDir : NTParsed → Option Bool)
    (dir : List (List Char × List Char)) (max_file_size : Nat)
    (auth : Option User) (authErr : Option String)
    (files : List (String × FilePart)) (form_data : List (String × String)) :
    Resp × List Effect :=
  match auth with
  | Option.none => (errResp (authErr.getD "Authentication required") 401, [])
  | some _ =>
      match alookup files "file" with
      | Option.none => (errResp "No file provided" 400, [])
      | some fi =>
          if fi.filename = "" then (errResp "Invalid filename" 400, [])
          else
            let filename := ntBasename fi.filename.data
            if max_file_size < fi.content.length then
              (errResp ("File too large. Maximum size: " ++
                String.mk (natStr max_file_size) ++ " bytes") 400, [])
            else
              let upload_path :=
                String.mk (pyStrip ((alookup form_data "path").getD "").data)
              let dest_dir := if upload_path ≠ "" ∧ upload_path ≠ "/" then
                  resolveFull d upload_path.data
                else normpathP (rootParsed d)
              let dest_file := joinP dest_dir (parsePath filename.data)
              if startswith_drive d dest_dir = false ||
                  startswith_drive d dest_file = false then
                (errResp "Access denied" 403, [])
              else if (fsDir dest_dir).isNone then
                (errResp "Destination directory not found" 404, [])
              else
                let res := upload_store dir filename.data fi.content
                (okResp, [Effect.writeFx (joinP dest_dir (parsePath res.2)) fi.content,
                  Effect.logFx "upload"])

/-- The concrete destination listing already holding the colliding name. -/
def c8dir : List (List Char × List Char) := [(("a.txt").data, ("old").data)]

/-- A generic authenticated active user for concrete evaluations. -/
def someUser : User := ⟨1, "admin", "", "", "admin", true⟩

/-- The concrete filesystem for the rename counterexample: one file under
the docs folder. -/
def c5fs : NTParsed → Option Bool := fun p =>
  if p = ⟨WDrive.letter 'G', true, ["docs", "a.txt"]⟩ then some false else Option.none

/-- The concrete filesystem for the audit-failure theorems: one file at
the drive root and one under the docs folder. -/
def c9fs : NTParsed → Option Bool := fun p =>
  if p = ⟨WDrive.letter 'G', true, ["doomed.txt"]⟩ ∨
      p = ⟨WDrive.letter 'G', true, ["docs", "a.txt"]⟩ then some false
  else Option.none

/-- The concrete corrupted user row for the C10 witness. -/
def c10row : User := ⟨1, "admin", "deadbeef", "", "admin", true⟩

/-! Lemmas about the path model. -/

theorem splitSegsAux_noSep (l : List Char) :
    ∀ cur, (∀ c ∈ cur, isSep c = false) →
      ∀ s ∈ splitSegsAux cur l, ∀ c ∈ s.data, isSep c = false := by
  induction l with
  | nil =>
      intro cur hcur s hs c hc
      simp only [splitSegsAux, List.mem_singleton] at hs
      subst hs
      exact hcur c (by simpa using hc)
  | cons a rest ih =>
      intro cur hcur s hs c hc
      simp only [splitSegsAux] at hs
      by_cases ha : isSep a = true
      · rw [if_pos ha] at hs
        rcases List.mem_cons.mp hs with h | h
        · subst h
          exact hcur c (by simpa using hc)
        · exact ih [] (by simp) s h c hc
      · rw [if_neg ha] at hs
        refine ih (a :: cur) ?_ s hs c hc
        intro x hx
        rcases List.mem_cons.mp hx with h | h
        · subst h; simpa using ha
        · exact hcur x h

theorem splitSegs_noSep (cs : List Char) :
    ∀ s ∈ splitSegs cs, ∀ c ∈ s.data, isSep c = false :=
  splitSegsAux_noSep cs [] (by simp)

theorem parsePath_noSep (cs : List Char) :
    ∀ s ∈ (parsePath cs).segs, ∀ c ∈ s.data, isSep c = false := by
  unfold parsePath
  repeat' split
  all_goals first
    | exact splitSegs_noSep _
    | (intro s hs; simp at hs)

/-- Case analysis on one normStep: each element of the result either was
in the accumulator, is the freshly pushed (non-special) component, or is
a dotdot that is only produced when the path is relative or a dotdot was
already present. -/
theorem normStep_mem (rt : Bool) (acc : List String) (a x : String)
    (hx : x ∈ normStep rt acc a) :
    x ∈ acc ∨ (x = a ∧ a ≠ "" ∧ a ≠ "." ∧ a ≠ "..") ∨
      (x = ".." ∧ (rt = false ∨ ".." ∈ acc)) := by
  unfold normStep at hx
  by_cases h0 : a = "" ∨ a = "."
  · rw [if_pos h0] at hx; exact Or.inl hx
  · rw [if_neg h0] at hx
    by_cases h1 : a = ".."
    · rw [if_pos h1] at hx
      cases acc with
      | nil =>
          cases rt with
          | true => simp at hx
          | false =>
              simp only [Bool.false_eq_true, if_false, List.mem_singleton] at hx
              exact Or.inr (Or.inr ⟨hx, Or.inl rfl⟩)
      | cons b t =>
          dsimp only at hx
          by_cases hb : b = ".."
          · rw [if_pos hb] at hx
            rcases List.mem_cons.mp hx with h | h
            · exact Or.inr (Or.inr ⟨h, Or.inr (hb ▸ List.mem_cons_self b t)⟩)
            · exact Or.inl h
          · rw [if_neg hb] at hx
            exact Or.inl (List.mem_cons_of_mem b hx)
    · rw [if_neg h1] at hx
      rcases List.mem_cons.mp hx with h | h
      · push_neg at h0
        exact Or.inr (Or.inl ⟨h, h0.1, h0.2, h1⟩)
      · exact Or.inl h

theorem normStep_fold_SegOK (rt : Bool) (l : List String) :
    ∀ acc, (∀ s ∈ acc, SegOK rt s) →
      ∀ s ∈ List.foldl (normStep rt) acc l, SegOK rt s := by
  induction l with
  | nil => intro acc hacc s hs; exact hacc s hs
  | cons a rest ih =>
      intro acc hacc s hs
      simp only [List.foldl_cons] at hs
      refine ih (normStep rt acc a) ?_ s hs
      intro x hx
      rcases normStep_mem rt acc a x hx with h | ⟨hxa, h1, h2, h3⟩ | ⟨hdd, hcase⟩
      · exact hacc x h
      · subst hxa; exact ⟨h1, h2, fun _ => h3⟩
      · subst hdd
        rcases hcase with hrt | hmem
        · exact ⟨by decide, by decide, fun h => by simp [hrt] at h⟩
        · exact hacc ".." hmem

theorem normSegs_SegOK (rt : Bool) (segs : List String) :
    ∀ s ∈ normSegs rt segs, SegOK rt s := by
  intro s hs
  unfold normSegs at hs
  exact normStep_fold_SegOK rt segs [] (by simp) s (List.mem_reverse.mp hs)

/-- Components surviving normalisation come from the input or are dotdot. -/
theorem normStep_fold_origin (rt : Bool) (P : String → Prop)
    (hdd : P "..") (l : List String) :
    ∀ acc, (∀ s ∈ acc, P s) → (∀ s ∈ l, P s) →
      ∀ s ∈ List.foldl (normStep rt) acc l, P s := by
  induction l with
  | nil => intro acc hacc _ s hs; exact hacc s hs
  | cons a rest ih =>
      intro acc hacc hl s hs
      simp only [List.foldl_cons] at hs
      refine ih (normStep rt acc a) ?_ (fun x hx => hl x (List.mem_cons_of_mem a hx)) s hs
      intro x hx
      rcases normStep_mem rt acc a x hx with h | ⟨hxa, _, _, _⟩ | ⟨hdd2, _⟩
      · exact hacc x h
      · rw [hxa]; exact hl a (List.mem_cons_self a rest)
      · rw [hdd2]; exact hdd

theorem normSegs_noSep (rt : Bool) (segs : List String)
    (h : ∀ s ∈ segs, ∀ c ∈ s.data, isSep c = false) :
    ∀ s ∈ normSegs rt segs, ∀ c ∈ s.data, isSep c = false := by
  intro s hs
  unfold normSegs at hs
  exact normStep_fold_origin rt (fun s => ∀ c ∈ s.data, isSep c = false)
    (by decide) segs [] (by simp) h s (List.mem_reverse.mp hs)

/-- A rooted one-letter-drive path passing the startswith check has the
configured drive letter. -/
theorem startswith_letter_root (d c : Char) (segs : List String)
    (h : startswith_drive d ⟨WDrive.letter c, true, segs⟩ = true) : c = d := by
  simp only [startswith_drive, render, renderDrive] at h
  simp only [List.cons_append, List.nil_append, isPre, Bool.and_eq_true, beq_iff_eq] at h
  exact h.1.symm

/-- A relative one-letter-drive path whose components are nonempty and
separator-free never passes the startswith check. -/
theorem startswith_letter_rel (d c : Char) (segs : List String)
    (hne : ∀ s ∈ segs, s ≠ "")
    (hns : ∀ s ∈ segs, ∀ ch ∈ s.data, isSep ch = false) :
    startswith_drive d ⟨WDrive.letter c, false, segs⟩ = false := by
  simp only [startswith_drive, render, renderDrive]
  simp only [Bool.false_eq_true, if_false, List.append_nil]
  match segs with
  | [] => simp [renderSegs, isPre]
  | s :: rest =>
      have hs : s ≠ "" := hne s (by simp)
      match hd : s.data with
      | [] => exact absurd (by cases s; simp_all) hs
      | ch :: tl =>
          have hch : isSep ch = false := hns s (by simp) ch (by rw [hd]; simp)
          have hch' : ch ≠ '\\' := by
            intro h; rw [h] at hch; simp [isSep] at hch
          have hb : ('\\' == ch) = false := beq_eq_false_iff_ne.mpr (Ne.symm hch')
          match rest with
          | [] =>
              simp [renderSegs, hd, isPre, hb]
          | r :: rs =>
              simp [renderSegs, hd, isPre, hb]

/-- A UNC-style path never passes the startswith check: its second
character is a separator, not a colon. -/
theorem startswith_unc (d : Char) (r : List Char) (rt : Bool) (segs : List String) :
    startswith_drive d ⟨WDrive.unc r, rt, segs⟩ = false := by
  simp only [startswith_drive, render, renderDrive, List.cons_append, isPre]
  simp

/-- C1: for every client-supplied virtual path, the resolution pipeline
used by the list, download, upload, create-folder, delete and rename
handlers (join with the drive root, canonicalize with normpath, then the
startswith prefix check on the canonicalized form) only accepts paths
that resolve to the drive root or a descendant of it: same drive,
rooted, and free of empty, dot and dotdot components. -/
theorem c1_sandbox_resolution_sound (d : Char) (vpath : List Char)
    (h : securityCheck d vpath = true) : underRoot d (resolveFull d vpath) := by
  unfold securityCheck at h
  unfold resolveFull at h ⊢
  have hsegs := parsePath_noSep (lstripSlash vpath)
  set p := parsePath (lstripSlash vpath) with hp
  obtain ⟨bd, br, bs⟩ := p
  simp only at hsegs
  have hcanon : ∀ s ∈ normSegs true bs, s ≠ "" ∧ s ≠ "." ∧ s ≠ ".." := by
    intro s hs
    have := normSegs_SegOK true bs s hs
    exact ⟨this.1, this.2.1, this.2.2 rfl⟩
  cases bd with
  | nodrive =>
      cases br with
      | true =>
          have hred : normpathP (joinP (rootParsed d) ⟨WDrive.nodrive, true, bs⟩) =
              ⟨WDrive.letter d, true, normSegs true bs⟩ := rfl
          rw [hred] at h ⊢
          exact ⟨rfl, rfl, hcanon⟩
      | false =>
          have hred : normpathP (joinP (rootParsed d) ⟨WDrive.nodrive, false, bs⟩) =
              ⟨WDrive.letter d, true, normSegs true bs⟩ := rfl
          rw [hred] at h ⊢
          exact ⟨rfl, rfl, hcanon⟩
  | letter c =>
      cases br with
      | true =>
          have hred : normpathP (joinP (rootParsed d) ⟨WDrive.letter c, true, bs⟩) =
              ⟨WDrive.letter c, true, normSegs true bs⟩ := rfl
          rw [hred] at h ⊢
          have hc : c = d := startswith_letter_root d c (normSegs true bs) h
          subst hc
          exact ⟨rfl, rfl, hcanon⟩
      | false =>
          by_cases hl : (c.toLower == d.toLower) = true
          · have hred : normpathP (joinP (rootParsed d) ⟨WDrive.letter c, false, bs⟩) =
                ⟨WDrive.letter c, true, normSegs true bs⟩ := by
              unfold joinP rootParsed
              dsimp only
              rw [if_neg (by simp), if_pos hl]
              rfl
            rw [hred] at h ⊢
            have hc : c = d := startswith_letter_root d c (normSegs true bs) h
            subst hc
            exact ⟨rfl, rfl, hcanon⟩
          · have hred : normpathP (joinP (rootParsed d) ⟨WDrive.letter c, false, bs⟩) =
                ⟨WDrive.letter c, false, normSegs false bs⟩ := by
              unfold joinP rootParsed
              dsimp only
              rw [if_neg (by simp), if_neg hl]
              rfl
            rw [hred] at h
            have hbad := startswith_letter_rel d c (normSegs false bs)
              (fun s hs => (normSegs_SegOK false bs s hs).1)
              (normSegs_noSep false bs hsegs)
            rw [hbad] at h
            exact absurd h (by simp)
  | unc r =>
      have hred : normpathP (joinP (rootParsed d) ⟨WDrive.unc r, br, bs⟩) =
          ⟨WDrive.unc r, br, bs⟩ := rfl
      rw [hred] at h
      rw [startswith_unc] at h
      exact absurd h (by simp)

/-- Witness for C1: the classic dotdot traversal attempt resolves to a
path under the root (normpath eats dotdot at the drive root) and is
accepted, and the conclusion indeed holds there. -/
theorem c1_sandbox_resolution_sound_witness :
    securityCheck 'G' ("../../etc/passwd".data) = true ∧
      underRoot 'G' (resolveFull 'G' ("../../etc/passwd".data)) :=
  ⟨by decide, c1_sandbox_resolution_sound 'G' ("../../etc/passwd".data) (by decide)⟩

/-! Association list lemmas used by the session theorems. -/

theorem alookup_some_mem {α β : Type} [DecidableEq α]
    (l : List (α × β)) (k : α) (v : β) (h : alookup l k = some v) : (k, v) ∈ l := by
  induction l with
  | nil => simp [alookup] at h
  | cons p rest ih =>
      obtain ⟨k0, v0⟩ := p
      simp only [alookup] at h
      by_cases hk : k0 = k
      · rw [if_pos hk] at h
        subst hk
        simp only [Option.some.injEq] at h
        subst h
        exact List.mem_cons_self _ _
      · rw [if_neg hk] at h
        exact List.mem_cons_of_mem _ (ih h)

theorem alookup_none_of_not_mem_keys {α β : Type} [DecidableEq α]
    (l : List (α × β)) (k : α) (h : k ∉ l.map Prod.fst) : alookup l k = Option.none := by
  induction l with
  | nil => rfl
  | cons p rest ih =>
      obtain ⟨k0, v0⟩ := p
      simp only [List.map_cons, List.mem_cons] at h
      push_neg at h
      simp only [alookup]
      rw [if_neg (fun he => h.1 he.symm)]
      exact ih h.2

theorem alookup_filter_of_none {α β : Type} [DecidableEq α]
    (l : List (α × β)) (p : α × β → Bool) (k : α)
    (h : alookup l k = Option.none) : alookup (l.filter p) k = Option.none := by
  induction l with
  | nil => rfl
  | cons q rest ih =>
      obtain ⟨k0, v0⟩ := q
      simp only [alookup] at h
      by_cases hk : k0 = k
      · rw [if_pos hk] at h; exact absurd h (by simp)
      · rw [if_neg hk] at h
        simp only [List.filter_cons]
        by_cases hp : p (k0, v0) = true
        · rw [if_pos hp]
          simp only [alookup]
          rw [if_neg hk]
          exact ih h
        · rw [if_neg hp]
          exact ih h

theorem alookup_filter_false {α β : Type} [DecidableEq α]
    (l : List (α × β)) (p : α × β → Bool) (k : α)
    (h : ∀ v, (k, v) ∈ l → p (k, v) = false) : alookup (l.filter p) k = Option.none := by
  induction l with
  | nil => rfl
  | cons q rest ih =>
      obtain ⟨k0, v0⟩ := q
      simp only [List.filter_cons]
      by_cases hk : k0 = k
      · subst hk
        have : p (k0, v0) = false := h v0 (List.mem_cons_self _ _)
        rw [this]
        simp only [Bool.false_eq_true, if_false]
        exact ih (fun v hv => h v (List.mem_cons_of_mem _ hv))
      · by_cases hp : p (k0, v0) = true
        · rw [if_pos hp]
          simp only [alookup]
          rw [if_neg hk]
          exact ih (fun v hv => h v (List.mem_cons_of_mem _ hv))
        · rw [if_neg hp]
          exact ih (fun v hv => h v (List.mem_cons_of_mem _ hv))

theorem alookup_eraseKey_self {α β : Type} [DecidableEq α]
    (l : List (α × β)) (k : α) (hnodup : (l.map Prod.fst).Nodup) :
    alookup (eraseKey l k) k = Option.none := by
  induction l with
  | nil => rfl
  | cons q rest ih =>
      obtain ⟨k0, v0⟩ := q
      simp only [List.map_cons, List.nodup_cons] at hnodup
      simp only [eraseKey]
      by_cases hk : k0 = k
      · rw [if_pos hk]
        subst hk
        exact alookup_none_of_not_mem_keys rest k0 hnodup.1
      · rw [if_neg hk]
        simp only [alookup]
        rw [if_neg hk]
        exact ih hnodup.2

/-- The database path of validation under an all-expired token: fails and
leaves the token in neither layer. -/
theorem validate_db_check_purged (st : ServerState) (token : String) (now : Nat)
    (hcacheNone : alookup st.sessions token = Option.none)
    (hdb : ∀ p ∈ st.dbSessions, p.1 = token → p.2.expires_at < now) :
    (validate_db_check st token now).1 = Option.none ∧
      alookup (validate_db_check st token now).2.sessions token = Option.none ∧
      alookup (validate_db_check st token now).2.dbSessions token = Option.none := by
  unfold validate_db_check
  cases hd : alookup st.dbSessions token with
  | some s =>
      have hmem := alookup_some_mem _ _ _ hd
      have hexp : s.expires_at < now := hdb (token, s) hmem rfl
      dsimp only
      rw [if_neg (show ¬ now < s.expires_at by omega)]
      refine ⟨rfl, ?_, ?_⟩
      · exact alookup_filter_of_none _ _ _ hcacheNone
      · refine alookup_filter_false _ _ _ (fun v hv => ?_)
        have hv2 : v.expires_at < now := hdb (token, v) hv rfl
        simp only [decide_eq_false_iff_not]
        omega
  | none => exact ⟨rfl, hcacheNone, hd⟩

/-- C7: validating a nonempty token all of whose bindings (in the memory
cache, whose dict keys are unique, and in the sessions table) have
expiry strictly before the current time fails, and as a side effect the
token is absent from both the cache and the table afterwards, whichever
layer held it. -/
theorem c7_expired_validation_purges_both_layers
    (st : ServerState) (token : String) (now : Nat)
    (htok : token ≠ "")
    (hnodup : (st.sessions.map Prod.fst).Nodup)
    (hcache : ∀ p ∈ st.sessions, p.1 = token → p.2.expires_at < now)
    (hdb : ∀ p ∈ st.dbSessions, p.1 = token → p.2.expires_at < now) :
    (validate_session st token now).1 = Option.none ∧
      alookup (validate_session st token now).2.sessions token = Option.none ∧
      alookup (validate_session st token now).2.dbSessions token = Option.none := by
  unfold validate_session
  rw [if_neg htok]
  cases hc : alookup st.sessions token with
  | some s =>
      have hmem := alookup_some_mem _ _ _ hc
      have hexp : s.expires_at < now := hcache (token, s) hmem rfl
      dsimp only
      rw [if_neg (show ¬ now < s.expires_at by omega)]
      exact validate_db_check_purged _ token now
        (alookup_eraseKey_self st.sessions token hnodup) hdb
  | none => exact validate_db_check_purged st token now hc hdb

/-- Witness for C7 at a concrete state holding the expired token in both
layers. -/
theorem c7_expired_validation_purges_both_layers_witness :
    (("tk" : String) ≠ "") ∧
      ((validate_session ⟨[("tk", ⟨1, 5, "ip"⟩)], [("tk", ⟨1, 5, "ip"⟩)]⟩ "tk" 10).1
          = Option.none ∧
        alookup (validate_session ⟨[("tk", ⟨1, 5, "ip"⟩)], [("tk", ⟨1, 5, "ip"⟩)]⟩
            "tk" 10).2.sessions "tk" = Option.none ∧
        alookup (validate_session ⟨[("tk", ⟨1, 5, "ip"⟩)], [("tk", ⟨1, 5, "ip"⟩)]⟩
            "tk" 10).2.dbSessions "tk" = Option.none) :=
  ⟨by decide,
    c7_expired_validation_purges_both_layers
      ⟨[("tk", ⟨1, 5, "ip"⟩)], [("tk", ⟨1, 5, "ip"⟩)]⟩ "tk" 10
      (by decide) (by decide) (by decide) (by decide)⟩

/-- C2 fails on the code: after createSession(U) twice, validating the
first token at a later instant still succeeds, served from the stale
memory-cache entry that create_session never removes, even though the
token's row was deleted from the durable store. -/
theorem c2_first_token_still_validates_from_cache :
    (validate_session twoSessionsState "tokenA" 1).1 = some ⟨1, 100, "addr"⟩ ∧
      alookup twoSessionsState.dbSessions "tokenA" = Option.none ∧
      alookup twoSessionsState.sessions "tokenA" = some ⟨1, 100, "addr"⟩ := by
  decide

/-! Lemmas for the multipart theorems. -/

theorem isPre_nil_eq (p : List Char) (h : isPre p [] = true) : p = [] := by
  cases p with
  | nil => rfl
  | cons a as => simp [isPre] at h

theorem isPre_append (p : List Char) :
    ∀ l t, isPre p l = true → isPre p (l ++ t) = true := by
  induction p with
  | nil => intro l t _; rfl
  | cons a as ih =>
      intro l t h
      cases l with
      | nil => simp [isPre] at h
      | cons b bs =>
          simp only [isPre, Bool.and_eq_true] at h
          simp only [List.cons_append, isPre, Bool.and_eq_true]
          exact ⟨h.1, ih bs t h.2⟩

theorem containsSub_exists_drop (pat l : List Char)
    (h : containsSub pat l = true) : ∃ i, isPre pat (l.drop i) = true := by
  induction l with
  | nil => exact ⟨0, h⟩
  | cons c rest ih =>
      simp only [containsSub, Bool.or_eq_true] at h
      rcases h with h | h
      · exact ⟨0, h⟩
      · obtain ⟨i, hi⟩ := ih h
        exact ⟨i + 1, by simpa using hi⟩

theorem containsSub_append_right (pat a : List Char) :
    ∀ l, containsSub pat l = true → containsSub pat (a ++ l) = true := by
  induction a with
  | nil => intro l h; simpa using h
  | cons x a' ih =>
      intro l h
      simp only [List.cons_append, containsSub, Bool.or_eq_true]
      exact Or.inr (ih l h)

theorem containsSub_append_left (pat : List Char) :
    ∀ a l, containsSub pat a = true → containsSub pat (a ++ l) = true := by
  intro a
  induction a with
  | nil =>
      intro l h
      have hp : pat = [] := isPre_nil_eq pat h
      subst hp
      cases l with
      | nil => rfl
      | cons c cs => simp [containsSub, isPre]
  | cons x a' ih =>
      intro l h
      simp only [containsSub, Bool.or_eq_true] at h
      simp only [List.cons_append, containsSub, Bool.or_eq_true]
      rcases h with h | h
      · exact Or.inl (isPre_append pat (x :: a') l h)
      · exact Or.inr (ih l h)

theorem drop_append_le {α : Type} (l₁ l₂ : List α) :
    ∀ n, n ≤ l₁.length → (l₁ ++ l₂).drop n = l₁.drop n ++ l₂ := by
  induction l₁ with
  | nil =>
      intro n hn
      have : n = 0 := Nat.le_zero.mp hn
      subst this
      simp
  | cons a t ih =>
      intro n hn
      cases n with
      | zero => simp
      | succ m =>
          simp only [List.cons_append, List.drop_succ_cons]
          exact ih m (Nat.le_of_succ_le_succ hn)

/-- Every piece produced by the boundary split is free of the separator:
the scan cuts at the leftmost occurrence, so no occurrence can survive
inside a piece. -/
theorem splitOnSubAux_pieces (sep : List Char) (hsep : sep ≠ []) :
    ∀ fuel l acc, l.length ≤ fuel →
      (∀ i, i < acc.length → isPre sep (acc.reverse.drop i ++ l) = false) →
      ∀ piece ∈ splitOnSubAux sep fuel acc l, containsSub sep piece = false := by
  intro fuel
  induction fuel with
  | zero =>
      intro l acc hlen hinv piece hp
      cases l with
      | nil =>
          simp only [splitOnSubAux, List.mem_singleton] at hp
          subst hp
          by_contra hcon
          rw [Bool.not_eq_false] at hcon
          obtain ⟨i, hi⟩ := containsSub_exists_drop _ _ hcon
          by_cases hilt : i < acc.length
          · have := hinv i hilt
            rw [List.append_nil] at this
            rw [this] at hi
            exact absurd hi (by simp)
          · rw [List.drop_eq_nil_of_le (by rw [List.length_reverse]; omega)] at hi
            exact hsep (isPre_nil_eq sep hi)
      | cons c rest => simp at hlen
  | succ fuel ih =>
      intro l acc hlen hinv piece hp
      cases l with
      | nil =>
          simp only [splitOnSubAux, List.mem_singleton] at hp
          subst hp
          by_contra hcon
          rw [Bool.not_eq_false] at hcon
          obtain ⟨i, hi⟩ := containsSub_exists_drop _ _ hcon
          by_cases hilt : i < acc.length
          · have := hinv i hilt
            rw [List.append_nil] at this
            rw [this] at hi
            exact absurd hi (by simp)
          · rw [List.drop_eq_nil_of_le (by rw [List.length_reverse]; omega)] at hi
            exact hsep (isPre_nil_eq sep hi)
      | cons c rest =>
          simp only [splitOnSubAux] at hp
          by_cases hcut : isPre sep (c :: rest) = true
          · rw [if_pos hcut] at hp
            rcases List.mem_cons.mp hp with h | h
            · subst h
              by_contra hcon
              rw [Bool.not_eq_false] at hcon
              obtain ⟨i, hi⟩ := containsSub_exists_drop _ _ hcon
              by_cases hilt : i < acc.length
              · have hext := isPre_append sep (acc.reverse.drop i) (c :: rest) hi
                have := hinv i hilt
                rw [this] at hext
                exact absurd hext (by simp)
              · rw [List.drop_eq_nil_of_le (by rw [List.length_reverse]; omega)] at hi
                exact hsep (isPre_nil_eq sep hi)
            · refine ih (rest.drop (sep.length - 1)) [] ?_ (by simp) piece h
              have h1 : (rest.drop (sep.length - 1)).length ≤ rest.length := by
                rw [List.length_drop]; omega
              simp only [List.length_cons] at hlen
              omega
          · rw [if_neg hcut] at hp
            refine ih rest (c :: acc) ?_ ?_ piece hp
            · simp only [List.length_cons] at hlen; omega
            · intro i hilt
              simp only [List.length_cons] at hilt
              rw [List.reverse_cons]
              by_cases hieq : i < acc.length
              · rw [drop_append_le _ _ i (by rw [List.length_reverse]; omega)]
                rw [List.append_assoc]
                have := hinv i hieq
                simpa using this
              · have hieq2 : i = acc.length := by omega
                subst hieq2
                rw [drop_append_le _ _ acc.length (by rw [List.length_reverse])]
                rw [List.drop_eq_nil_of_le (by rw [List.length_reverse])]
                simpa using hcut

theorem splitOnSub_pieces (sep body : List Char) (hsep : sep ≠ []) :
    ∀ piece ∈ splitOnSub sep body, containsSub sep piece = false :=
  splitOnSubAux_pieces sep hsep body.length body [] (Nat.le_refl _) (by simp)

/-- The second component of the single split is a suffix of the input. -/
theorem splitOnceAux_suffix (sep : List Char) :
    ∀ fuel l acc, ∃ s, l = s ++ (splitOnceAux sep fuel acc l).2 := by
  intro fuel
  induction fuel with
  | zero =>
      intro l acc
      cases l with
      | nil => exact ⟨[], rfl⟩
      | cons c rest => exact ⟨c :: rest, by simp [splitOnceAux]⟩
  | succ fuel ih =>
      intro l acc
      cases l with
      | nil => exact ⟨[], rfl⟩
      | cons c rest =>
          simp only [splitOnceAux]
          by_cases hcut : isPre sep (c :: rest) = true
          · rw [if_pos hcut]
            refine ⟨c :: rest.take (sep.length - 1), ?_⟩
            simp only [List.cons_append, List.cons.injEq, true_and]
            exact (List.take_append_drop _ rest).symm
          · rw [if_neg hcut]
            obtain ⟨s, hs⟩ := ih rest (c :: acc)
            exact ⟨c :: s, by rw [List.cons_append, ← hs]⟩

theorem splitOnce_suffix (sep l : List Char) :
    ∃ s, l = s ++ (splitOnce sep l).2 :=
  splitOnceAux_suffix sep l.length l []

/-- rstrip only removes a suffix. -/
theorem rstripSet_prefix (set l : List Char) :
    ∃ t, l = rstripSet set l ++ t := by
  refine ⟨(l.reverse.takeWhile (fun c => set.contains c)).reverse, ?_⟩
  have h : (l.reverse.takeWhile (fun c => set.contains c)) ++
      (l.reverse.dropWhile (fun c => set.contains c)) = l.reverse := by
    rw [List.takeWhile_append_dropWhile]
  have h2 : l = ((l.reverse.takeWhile (fun c => set.contains c)) ++
      (l.reverse.dropWhile (fun c => set.contains c))).reverse := by
    rw [h, List.reverse_reverse]
  rw [List.reverse_append] at h2
  exact h2

/-- Content derived from a separator-free piece stays separator-free. -/
theorem content_free_of_piece_free (sep piece : List Char)
    (hp : containsSub sep piece = false) :
    containsSub sep (rstripSet ['\r', '\n', '-'] (splitOnce ("\r\n\r\n".data) piece).2)
      = false := by
  by_contra hcon
  rw [Bool.not_eq_false] at hcon
  obtain ⟨t, ht⟩ := rstripSet_prefix ['\r', '\n', '-'] (splitOnce ("\r\n\r\n".data) piece).2
  obtain ⟨s, hs⟩ := splitOnce_suffix ("\r\n\r\n".data) piece
  have h1 := containsSub_append_left sep _ t hcon
  rw [← ht] at h1
  have h2 := containsSub_append_right sep s _ h1
  rw [← hs] at h2
  rw [hp] at h2
  exact absurd h2 (by simp)

theorem upsert_mem {α β : Type} [DecidableEq α]
    (l : List (α × β)) (k : α) (v : β) :
    ∀ kv ∈ upsert l k v, kv = (k, v) ∨ kv ∈ l := by
  induction l with
  | nil => intro kv h; simp only [upsert, List.mem_singleton] at h; exact Or.inl h
  | cons p rest ih =>
      obtain ⟨k0, v0⟩ := p
      intro kv h
      simp only [upsert] at h
      by_cases hk : k0 = k
      · rw [if_pos hk] at h
        rcases List.mem_cons.mp h with h | h
        · exact Or.inl h
        · exact Or.inr (List.mem_cons_of_mem _ h)
      · rw [if_neg hk] at h
        rcases List.mem_cons.mp h with h | h
        · exact Or.inr (h ▸ List.mem_cons_self _ _)
        · rcases ih kv h with h2 | h2
          · exact Or.inl h2
          · exact Or.inr (List.mem_cons_of_mem _ h2)

/-- Through the per-piece fold, every recorded file content comes from
some separator-free piece. -/
theorem processPart_fold_free (sep : List Char) :
    ∀ (parts : List (List Char))
      (acc : List (String × FilePart) × List (String × String)),
      (∀ kv ∈ acc.1, containsSub sep kv.2.content = false) →
      (∀ part ∈ parts, containsSub sep part = false) →
      ∀ kv ∈ (parts.foldl processPart acc).1, containsSub sep kv.2.content = false := by
  intro parts
  induction parts with
  | nil => intro acc hacc _ kv hkv; exact hacc kv hkv
  | cons part rest ih =>
      intro acc hacc hparts kv hkv
      simp only [List.foldl_cons] at hkv
      refine ih (processPart acc part) ?_
        (fun p hp => hparts p (List.mem_cons_of_mem _ hp)) kv hkv
      intro kv2 hkv2
      have hfree : containsSub sep part = false := hparts part (List.mem_cons_self _ _)
      unfold processPart at hkv2
      by_cases h0 : part = [] ∨ part = ("--\r\n".data) ∨ part = ("--".data)
      · rw [if_pos h0] at hkv2; exact hacc kv2 hkv2
      · rw [if_neg h0] at hkv2
        by_cases h1 : containsSub ("\r\n\r\n".data) part = false
        · rw [if_pos h1] at hkv2; exact hacc kv2 hkv2
        · rw [if_neg h1] at hkv2
          dsimp only at hkv2
          cases hn : (parseDisposition (splitOnce ("\r\n\r\n".data) part).1).1 with
          | none => rw [hn] at hkv2; exact hacc kv2 hkv2
          | some fname =>
              rw [hn] at hkv2
              cases hf : (parseDisposition (splitOnce ("\r\n\r\n".data) part).1).2 with
              | none => rw [hf] at hkv2; exact hacc kv2 hkv2
              | some fn =>
                  rw [hf] at hkv2
                  dsimp only at hkv2
                  rcases upsert_mem _ _ _ kv2 hkv2 with h | h
                  · rw [h]
                    exact content_free_of_piece_free sep part hfree
                  · exact hacc kv2 h

/-- C4 as amended: because the decoder performs a naive whole-body split
at every occurrence of the delimiter bytes, the decoded content of a
file part never contains the delimiter; a part whose original content
contains the literal delimiter therefore cannot be returned intact. -/
theorem c4_decoded_file_content_never_contains_delimiter
    (boundary body : List Char) (fname : String) (fp : FilePart)
    (h : alookup (parse_multipart_form_data boundary body).1 fname = some fp) :
    containsSub ('-' :: '-' :: boundary) fp.content = false := by
  have hmem := alookup_some_mem _ _ _ h
  unfold parse_multipart_form_data at hmem
  have := processPart_fold_free ('-' :: '-' :: boundary)
    (splitOnSub ('-' :: '-' :: boundary) body) ([], []) (by simp)
    (splitOnSub_pieces _ body (by simp)) (fname, fp) hmem
  exact this

/-- Counterexample for C4 as stated: the decoder mis-splits the part at
the embedded delimiter and returns the truncated content X instead of
the original bytes X--BBY. -/
theorem c4_embedded_delimiter_is_missplit :
    alookup (parse_multipart_form_data ("BB".data) c4body).1 "file"
        = some ⟨"a.txt", "X".data⟩ ∧
      ("X".data ≠ ("X--BBY").data) := by
  constructor
  · decide
  · decide

/-- Witness for the amended C4 theorem at the concrete body. -/
theorem c4_decoded_file_content_never_contains_delimiter_witness :
    alookup (parse_multipart_form_data ("BB".data) c4body).1 "file"
        = some ⟨"a.txt", "X".data⟩ ∧
      containsSub ('-' :: '-' :: ("BB".data)) (FilePart.mk "a.txt" ("X".data)).content
        = false :=
  ⟨by decide,
    c4_decoded_file_content_never_contains_delimiter ("BB".data) c4body "file"
      ⟨"a.txt", "X".data⟩ (by decide)⟩

theorem natStrAux_eq_digits : ∀ f n, n ≤ f →
    natStrAux f n = ((Nat.digits 10 n).map Nat.digitChar).reverse := by
  intro f
  induction f with
  | zero =>
      intro n hn
      have h0 : n = 0 := Nat.le_zero.mp hn
      subst h0
      simp [natStrAux]
  | succ f ih =>
      intro n hn
      cases n with
      | zero => simp [natStrAux]
      | succ m =>
          have hdiv : (m + 1) / 10 ≤ f := by
            have := Nat.div_lt_self (Nat.succ_pos m) (by norm_num : 1 < 10)
            omega
          have hd := Nat.digits_def' (by norm_num : 1 < 10) (Nat.succ_pos m)
          simp only [natStrAux]
          rw [ih ((m + 1) / 10) hdiv, hd]
          simp

theorem digitChar_inj_lt : ∀ a, a < 10 → ∀ b, b < 10 →
    Nat.digitChar a = Nat.digitChar b → a = b := by decide

theorem map_digitChar_inj : ∀ l1 l2 : List Nat, (∀ x ∈ l1, x < 10) →
    (∀ x ∈ l2, x < 10) → l1.map Nat.digitChar = l2.map Nat.digitChar → l1 = l2 := by
  intro l1
  induction l1 with
  | nil =>
      intro l2 _ _ h
      cases l2 with
      | nil => rfl
      | cons b t2 => simp at h
  | cons a t ih =>
      intro l2 h1 h2 h
      cases l2 with
      | nil => simp at h
      | cons b t2 =>
          simp only [List.map_cons, List.cons.injEq] at h
          have ha := h1 a (List.mem_cons_self _ _)
          have hb := h2 b (List.mem_cons_self _ _)
          have hab : a = b := digitChar_inj_lt a ha b hb h.1
          subst hab
          rw [ih t2 (fun x hx => h1 x (List.mem_cons_of_mem _ hx))
            (fun x hx => h2 x (List.mem_cons_of_mem _ hx)) h.2]

theorem natStr_inj : ∀ m n, natStr m = natStr n → m = n := by
  intro m n h
  unfold natStr at h
  rw [natStrAux_eq_digits m m (Nat.le_refl m),
    natStrAux_eq_digits n n (Nat.le_refl n)] at h
  have h2 := List.reverse_injective h
  have h3 := map_digitChar_inj (Nat.digits 10 m) (Nat.digits 10 n)
    (fun x hx => Nat.digits_lt_base (by norm_num) hx)
    (fun x hx => Nat.digits_lt_base (by norm_num) hx) h2
  have h4 := congrArg (Nat.ofDigits 10) h3
  rwa [Nat.ofDigits_digits, Nat.ofDigits_digits] at h4

theorem candName_inj (base ext : List Char) :
    ∀ m n, candName base ext m = candName base ext n → m = n := by
  intro m n h
  unfold candName at h
  have h1 := List.append_cancel_left h
  simp only [List.cons.injEq, true_and] at h1
  exact natStr_inj m n (List.append_cancel_right h1)

theorem dirHas_iff_mem (dir : List (List Char × List Char)) (name : List Char) :
    dirHas dir name = true ↔ name ∈ dir.map Prod.fst := by
  simp [dirHas, List.any_eq_true, List.mem_map]

theorem nodup_subset_length {α : Type} [DecidableEq α] :
    ∀ L K : List α, L.Nodup → (∀ x ∈ L, x ∈ K) → L.length ≤ K.length := by
  intro L
  induction L with
  | nil => intro K _ _; simp
  | cons a t ih =>
      intro K hnd hsub
      simp only [List.nodup_cons] at hnd
      have haK : a ∈ K := hsub a (List.mem_cons_self _ _)
      have hsub2 : ∀ x ∈ t, x ∈ K.erase a := by
        intro x hx
        have hne : x ≠ a := fun he => hnd.1 (he ▸ hx)
        exact (List.mem_erase_of_ne hne).mpr (hsub x (List.mem_cons_of_mem _ hx))
      have hih := ih (K.erase a) hnd.2 hsub2
      have hlen := List.length_erase_of_mem haK
      have hpos : 0 < K.length := List.length_pos_of_mem haK
      simp only [List.length_cons]
      omega

theorem exists_free_candidate (dir : List (List Char × List Char)) (base ext : List Char) :
    ∃ k, k < dir.length + 1 ∧ dirHas dir (candName base ext (1 + k)) = false := by
  by_contra hcon
  push_neg at hcon
  have hall : ∀ k, k < dir.length + 1 → dirHas dir (candName base ext (1 + k)) = true := by
    intro k hk
    have hne := hcon k hk
    cases h : dirHas dir (candName base ext (1 + k)) with
    | false => exact absurd h hne
    | true => rfl
  have hinj : Function.Injective (fun k : Nat => candName base ext (1 + k)) := by
    intro x y hxy
    have := candName_inj base ext (1 + x) (1 + y) hxy
    omega
  have hnd : ((List.range (dir.length + 1)).map
      (fun k => candName base ext (1 + k))).Nodup :=
    List.Nodup.map hinj (List.nodup_range _)
  have hsub : ∀ x ∈ (List.range (dir.length + 1)).map
      (fun k => candName base ext (1 + k)), x ∈ dir.map Prod.fst := by
    intro x hx
    simp only [List.mem_map, List.mem_range] at hx
    obtain ⟨k, hk, he⟩ := hx
    rw [← he]
    exact (dirHas_iff_mem dir _).mp (hall k hk)
  have hlen := nodup_subset_length _ _ hnd hsub
  simp only [List.length_map, List.length_range] at hlen
  omega

theorem next_free_name_spec (ex : List Char → Bool) (base ext : List Char) :
    ∀ fuel n, (∃ k, k < fuel ∧ ex (candName base ext (n + k)) = false) →
      ∃ j, next_free_name ex base ext fuel n = candName base ext (n + j) ∧
        ex (candName base ext (n + j)) = false ∧
        ∀ i, i < j → ex (candName base ext (n + i)) = true := by
  intro fuel
  induction fuel with
  | zero =>
      intro n h
      obtain ⟨k, hk, _⟩ := h
      omega
  | succ fuel ih =>
      intro n h
      by_cases hx : ex (candName base ext n) = true
      · obtain ⟨k, hk, hfree⟩ := h
        have hk0 : k ≠ 0 := by
          intro h0
          subst h0
          simp only [Nat.add_zero] at hfree
          rw [hx] at hfree
          exact absurd hfree (by simp)
        have hshift : n + 1 + (k - 1) = n + k := by omega
        obtain ⟨j, hj1, hj2, hj3⟩ := ih (n + 1)
          ⟨k - 1, by omega, by rw [hshift]; exact hfree⟩
        refine ⟨j + 1, ?_, ?_, ?_⟩
        · unfold next_free_name
          dsimp only
          rw [if_pos hx, hj1]
          congr 1
          omega
        · have he : n + (j + 1) = n + 1 + j := by omega
          rw [he]
          exact hj2
        · intro i hi
          cases i with
          | zero => simpa using hx
          | succ i' =>
              have he : n + (i' + 1) = n + 1 + i' := by omega
              rw [he]
              exact hj3 i' (by omega)
      · refine ⟨0, ?_, ?_, ?_⟩
        · unfold next_free_name
          dsimp only
          rw [if_neg hx]
          rfl
        · simp only [Nat.add_zero]
          cases hx2 : ex (candName base ext n) with
          | false => rfl
          | true => exact absurd hx2 hx
        · intro i hi
          omega

theorem upload_dest_name_not_has (dir : List (List Char × List Char))
    (filename : List Char) :
    dirHas dir (upload_dest_name dir filename) = false := by
  unfold upload_dest_name
  by_cases h : dirHas dir filename = true
  · rw [if_pos h]
    dsimp only
    obtain ⟨k, hk, hfree⟩ :=
      exists_free_candidate dir (splitext filename).1 (splitext filename).2
    obtain ⟨j, hj1, hj2, _⟩ := next_free_name_spec (dirHas dir)
      (splitext filename).1 (splitext filename).2 (dir.length + 1) 1 ⟨k, hk, hfree⟩
    rw [hj1]
    exact hj2
  · rw [if_neg h]
    cases h2 : dirHas dir filename with
    | false => rfl
    | true => exact absurd h2 h

theorem dirHas_head (dir : List (List Char × List Char)) (k v : List Char) :
    dirHas ((k, v) :: dir) k = true := by
  simp [dirHas]

theorem dirHas_cons_of (dir : List (List Char × List Char))
    (kv : List Char × List Char) (x : List Char) (h : dirHas dir x = true) :
    dirHas (kv :: dir) x = true := by
  simp only [dirHas, List.any_cons, Bool.or_eq_true]
  exact Or.inr h

theorem upload_dest_name_of_not_has (dir : List (List Char × List Char))
    (filename : List Char) (h : ¬ dirHas dir filename = true) :
    upload_dest_name dir filename = filename := by
  unfold upload_dest_name
  rw [if_neg h]

/-- C8: on a name collision the stored name is the base with underscore n
before the extension, n starting at one and incremented until free (the
chosen n is the least free one); and two successive uploads of the same
filename land on distinct names with both contents independently
recoverable. -/
theorem c8_upload_collision_naming_and_recovery
    (dir : List (List Char × List Char)) (f c1 c2 : List Char) :
    (dirHas dir f = true →
      ∃ k, 1 ≤ k ∧
        (upload_store dir f c1).2 = candName (splitext f).1 (splitext f).2 k ∧
        dirHas dir (candName (splitext f).1 (splitext f).2 k) = false ∧
        ∀ i, 1 ≤ i → i < k →
          dirHas dir (candName (splitext f).1 (splitext f).2 i) = true) ∧
    (upload_store dir f c1).2 ≠ (upload_store (upload_store dir f c1).1 f c2).2 ∧
    alookup (upload_store (upload_store dir f c1).1 f c2).1 (upload_store dir f c1).2
        = some c1 ∧
    alookup (upload_store (upload_store dir f c1).1 f c2).1
        (upload_store (upload_store dir f c1).1 f c2).2 = some c2 := by
  have hn1 : (upload_store dir f c1).2 = upload_dest_name dir f := rfl
  have hr1 : (upload_store dir f c1).1 = (upload_dest_name dir f, c1) :: dir := rfl
  have hfree1 : dirHas dir (upload_dest_name dir f) = false :=
    upload_dest_name_not_has dir f
  have hZ : dirHas ((upload_dest_name dir f, c1) :: dir) f = true := by
    by_cases hcol : dirHas dir f = true
    · exact dirHas_cons_of dir _ f hcol
    · rw [upload_dest_name_of_not_has dir f hcol]
      exact dirHas_head dir f c1
  have hn2 : (upload_store (upload_store dir f c1).1 f c2).2 =
      upload_dest_name ((upload_dest_name dir f, c1) :: dir) f := by
    rw [hr1]
    rfl
  have hfree2 : dirHas ((upload_dest_name dir f, c1) :: dir)
      (upload_dest_name ((upload_dest_name dir f, c1) :: dir) f) = false :=
    upload_dest_name_not_has _ f
  have hne : upload_dest_name dir f ≠
      upload_dest_name ((upload_dest_name dir f, c1) :: dir) f := by
    intro he
    rw [← he] at hfree2
    rw [dirHas_head dir _ c1] at hfree2
    exact absurd hfree2 (by simp)
  refine ⟨?_, ?_, ?_, ?_⟩
  · intro hcol
    rw [hn1]
    unfold upload_dest_name
    rw [if_pos hcol]
    dsimp only
    obtain ⟨k, hk, hfree⟩ :=
      exists_free_candidate dir (splitext f).1 (splitext f).2
    obtain ⟨j, hj1, hj2, hj3⟩ := next_free_name_spec (dirHas dir)
      (splitext f).1 (splitext f).2 (dir.length + 1) 1 ⟨k, hk, hfree⟩
    refine ⟨1 + j, by omega, hj1, hj2, ?_⟩
    intro i h1i hij
    have he : i = 1 + (i - 1) := by omega
    rw [he]
    exact hj3 (i - 1) (by omega)
  · rw [hn1, hn2]
    exact hne
  · have hr2 : (upload_store (upload_store dir f c1).1 f c2).1 =
        (upload_dest_name ((upload_dest_name dir f, c1) :: dir) f, c2) ::
          (upload_dest_name dir f, c1) :: dir := by
      rw [hr1]
      rfl
    rw [hr2, hn1]
    simp only [alookup]
    rw [if_neg (fun he => hne he.symm)]
    simp
  · have hr2 : (upload_store (upload_store dir f c1).1 f c2).1 =
        (upload_dest_name ((upload_dest_name dir f, c1) :: dir) f, c2) ::
          (upload_dest_name dir f, c1) :: dir := by
      rw [hr1]
      rfl
    rw [hr2, hn2]
    simp only [alookup]
    simp

/-- Witness for C8: at the concrete colliding upload the two stored names
differ (the theorem applied at the listing holding a.txt). -/
theorem c8_upload_collision_naming_and_recovery_witness :
    (upload_store c8dir (("a.txt").data) (("one").data)).2 ≠
      (upload_store (upload_store c8dir (("a.txt").data) (("one").data)).1
        (("a.txt").data) (("two").data)).2 :=
  (c8_upload_collision_naming_and_recovery c8dir (("a.txt").data)
    (("one").data) (("two").data)).2.1

/-- Counterexample for C3 as stated: a sandbox escape in handle_download
answers 403 with Access denied, which differs from the 404 File not
found answer of the missing-file case, so the two cases are externally
distinguishable. -/
theorem c3_escape_response_differs_from_not_found :
    handle_download 'G' (fun _ => Option.none) (some someUser) Option.none
        (("C:/x").data) = (errResp "Access denied" 403, []) ∧
      handle_download 'G' (fun _ => Option.none) (some someUser) Option.none
        (("missing.txt").data) = (errResp "File not found" 404, []) ∧
      errResp "Access denied" 403 ≠ errResp "File not found" 404 := by
  refine ⟨by decide, by decide, by decide⟩

/-- C3 as amended: a resolved path that escapes the sandbox makes the
download, list and delete handlers answer 403 with Access denied, a
status and message distinct from the 404 not-found answer, and no
activity-record effect is produced for the attempt (nothing is logged
internally). -/
theorem c3_escape_yields_403_access_denied
    (d : Char) (fs : NTParsed → Option Bool) (u : User)
    (authErr logExc : Option String)
    (file_path : List Char) (pathParam delPath : String)
    (hdl : startswith_drive d (resolveFull d file_path) = false)
    (hlp1 : pathParam ≠ "") (hlp2 : pathParam ≠ "/")
    (hlist : startswith_drive d (resolveFull d pathParam.data) = false)
    (hdp : delPath ≠ "")
    (hdel : startswith_drive d (resolveFull d delPath.data) = false) :
    handle_download d fs (some u) authErr file_path
        = (errResp "Access denied" 403, []) ∧
    handle_list_files d fs (some u) authErr pathParam
        = (errResp "Access denied" 403, []) ∧
    handle_delete d fs logExc (some u) authErr delPath
        = (errResp "Access denied" 403, []) := by
  refine ⟨?_, ?_, ?_⟩
  · unfold handle_download
    dsimp only
    rw [if_pos hdl]
  · unfold handle_list_files
    dsimp only
    have hcond : pathParam ≠ "" ∧ pathParam ≠ "/" := And.intro hlp1 hlp2
    rw [if_pos hcond]
    rw [if_pos hlist]
  · unfold handle_delete
    dsimp only
    rw [if_neg hdp, if_pos hdel]

/-- Witness for the amended C3 at a concrete drive-relative escape path. -/
theorem c3_escape_yields_403_access_denied_witness :
    handle_download 'G' (fun _ => Option.none) (some someUser) Option.none
        (("C:/x").data) = (errResp "Access denied" 403, []) ∧
    handle_list_files 'G' (fun _ => Option.none) (some someUser) Option.none "C:/x"
        = (errResp "Access denied" 403, []) ∧
    handle_delete 'G' (fun _ => Option.none) Option.none (some someUser) Option.none "C:/x"
        = (errResp "Access denied" 403, []) :=
  c3_escape_yields_403_access_denied 'G' (fun _ => Option.none) someUser
    Option.none Option.none (("C:/x").data) "C:/x" "C:/x"
    (by decide) (by decide) (by decide) (by decide) (by decide) (by decide)

/-- Counterexample for C5 as stated: a new name containing a separator is
not rejected; the handler proceeds, renames to the joined path (two
levels below the parent) and answers success, not a validation error. -/
theorem c5_rename_accepts_separator_in_new_name :
    handle_rename 'G' c5fs Option.none (some someUser) Option.none
        "/docs/a.txt" "sub/evil.txt"
      = (okResp, [Effect.renameFx ⟨WDrive.letter 'G', true, ["docs", "a.txt"]⟩
          ⟨WDrive.letter 'G', true, ["docs", "sub", "evil.txt"]⟩,
          Effect.logFx "rename"]) ∧
    okResp.status ≠ 400 := by
  refine ⟨by decide, by decide⟩

theorem splitSegsAux_all_noSep :
    ∀ l cur, (∀ c ∈ l, isSep c = false) →
      splitSegsAux cur l = [String.mk (cur.reverse ++ l)] := by
  intro l
  induction l with
  | nil => intro cur _; simp [splitSegsAux]
  | cons c rest ih =>
      intro cur h
      have hc : isSep c = false := h c (List.mem_cons_self _ _)
      simp only [splitSegsAux, hc, Bool.false_eq_true, if_false]
      rw [ih (c :: cur) (fun x hx => h x (List.mem_cons_of_mem _ hx))]
      simp

/-- A nonempty name without separators and without a colon parses as a
single relative component. -/
theorem parsePath_bare (cs : List Char) (hne : cs ≠ [])
    (h : ∀ c ∈ cs, isSep c = false ∧ c ≠ ':') :
    parsePath cs = ⟨WDrive.nodrive, false, [String.mk cs]⟩ := by
  match cs with
  | [] => exact absurd rfl hne
  | [c1] =>
      have h1 := h c1 (List.mem_cons_self _ _)
      unfold parsePath
      dsimp only
      rw [if_neg (by simp [h1.1])]
      unfold splitSegs
      rw [splitSegsAux_all_noSep [c1] [] (fun x hx => (h x hx).1)]
      rfl
  | c1 :: c2 :: rest =>
      have h1 := h c1 (List.mem_cons_self _ _)
      have h2 := h c2 (List.mem_cons_of_mem _ (List.mem_cons_self _ _))
      unfold parsePath
      dsimp only
      rw [if_neg (by simp [h1.1])]
      rw [if_neg (by simp [h2.2])]
      unfold splitSegs
      rw [splitSegsAux_all_noSep (c1 :: c2 :: rest) [] (fun x hx => (h x hx).1)]
      rfl

/-- C5 as amended: the rename handler performs no separator check on the
new name; it renames the resolved source onto the raw join of the
source's parent directory with the parsed new name, and only when the
new name is a bare filename (no separators, no drive colon) does the
target stay inside the same parent directory. -/
theorem c5_rename_joins_new_name_onto_parent
    (d : Char) (fs : NTParsed → Option Bool) (u : User)
    (authErr logExc : Option String) (old_path new_name_raw : String)
    (hold : old_path ≠ "")
    (hnew : String.mk (pyStrip new_name_raw.data) ≠ "")
    (hchk : startswith_drive d (resolveFull d old_path.data) = true)
    (hex : (fs (resolveFull d old_path.data)).isNone = false) :
    Effect.renameFx (resolveFull d old_path.data)
        (joinP (dirnameP (resolveFull d old_path.data))
          (parsePath (String.mk (pyStrip new_name_raw.data)).data))
      ∈ (handle_rename d fs logExc (some u) authErr old_path new_name_raw).2 ∧
    ((∀ ch ∈ pyStrip new_name_raw.data, isSep ch = false ∧ ch ≠ ':') →
      joinP (dirnameP (resolveFull d old_path.data))
          (parsePath (String.mk (pyStrip new_name_raw.data)).data)
        = ⟨(resolveFull d old_path.data).drive, (resolveFull d old_path.data).root,
            (resolveFull d old_path.data).segs.dropLast ++
              [String.mk (pyStrip new_name_raw.data)]⟩) := by
  constructor
  · unfold handle_rename
    dsimp only
    rw [if_neg (by intro hc; rcases hc with hc | hc; exact hold hc; exact hnew hc)]
    rw [if_neg (by rw [hchk]; simp), if_neg (by rw [hex]; simp)]
    cases logExc with
    | none => dsimp only; exact List.mem_cons_self _ _
    | some e => dsimp only; exact List.mem_cons_self _ _
  · intro hbare
    have hsne : pyStrip new_name_raw.data ≠ [] := by
      intro hc
      exact hnew (by rw [hc])
    have hp := parsePath_bare (pyStrip new_name_raw.data) hsne hbare
    have hdata : (String.mk (pyStrip new_name_raw.data)).data
        = pyStrip new_name_raw.data := rfl
    rw [hdata, hp]
    unfold joinP dirnameP
    simp

/-- Witness for the amended C5 at the concrete rename of the docs file to
a bare name. -/
theorem c5_rename_joins_new_name_onto_parent_witness :
    Effect.renameFx (resolveFull 'G' (("/docs/a.txt").data))
        (joinP (dirnameP (resolveFull 'G' (("/docs/a.txt").data)))
          (parsePath (String.mk (pyStrip (("b.txt" : String)).data)).data))
      ∈ (handle_rename 'G' c5fs Option.none (some someUser) Option.none
          "/docs/a.txt" "b.txt").2 ∧
    ((∀ ch ∈ pyStrip (("b.txt" : String)).data, isSep ch = false ∧ ch ≠ ':') →
      joinP (dirnameP (resolveFull 'G' (("/docs/a.txt").data)))
          (parsePath (String.mk (pyStrip (("b.txt" : String)).data)).data)
        = ⟨(resolveFull 'G' (("/docs/a.txt").data)).drive,
            (resolveFull 'G' (("/docs/a.txt").data)).root,
            (resolveFull 'G' (("/docs/a.txt").data)).segs.dropLast ++
              [String.mk (pyStrip (("b.txt" : String)).data)]⟩) :=
  c5_rename_joins_new_name_onto_parent 'G' c5fs someUser Option.none Option.none
    "/docs/a.txt" "b.txt" (by decide) (by decide) (by decide) (by decide)

/-- Counterexample for C6 as stated: a logout request with no token at
all answers the success object with status 200, not a 401-class
failure. -/
theorem c6_logout_without_token_returns_success :
    handle_logout ⟨[], []⟩ [] 0 Option.none = (okResp, [], (⟨[], []⟩ : ServerState)) ∧
      okResp.status ≠ 401 := by
  refine ⟨by decide, by decide⟩

/-- C6 as amended: every API endpoint except status, login and logout
requires a valid Bearer token: with a failed authentication each
protected handler answers a 401 error and performs no state-mutating or
filesystem effect, and authentication fails for a missing Authorization
header, for a header without the Bearer prefix, for a token that
validate_session rejects, and (validation itself) for a token expired in
every layer that holds it.  Logout is the exception the counterexample
shows: it answers success without a valid token. -/
theorem c6_protected_endpoints_require_valid_token
    (d : Char) (fs : NTParsed → Option Bool) (logExc authErr : Option String)
    (pathParam delPath old_path new_name path name uidStr uname pwd npwd : String)
    (file_path : List Char) (dir : List (List Char × List Char)) (maxsz : Nat)
    (files : List (String × FilePart)) (form : List (String × String))
    (restartEnabled dup : Bool) (uid : Option Nat)
    (st : ServerState) (users : List User) (now : Nat) :
    handle_list_files d fs Option.none authErr pathParam
        = (errResp (authErr.getD "Authentication required") 401, []) ∧
    handle_download d fs Option.none authErr file_path
        = (errResp (authErr.getD "Authentication required") 401, []) ∧
    handle_storage_stats Option.none authErr
        = (errResp (authErr.getD "Authentication required") 401, []) ∧
    handle_upload d fs dir maxsz Option.none authErr files form
        = (errResp (authErr.getD "Authentication required") 401, []) ∧
    handle_create_folder d fs logExc Option.none authErr path name
        = (errResp (authErr.getD "Authentication required") 401, []) ∧
    handle_delete d fs logExc Option.none authErr delPath
        = (errResp (authErr.getD "Authentication required") 401, []) ∧
    handle_rename d fs logExc Option.none authErr old_path new_name
        = (errResp (authErr.getD "Authentication required") 401, []) ∧
    handle_server_restart restartEnabled Option.none authErr
        = (errResp (authErr.getD "Admin access required") 401, []) ∧
    handle_get_users Option.none authErr
        = (errResp (authErr.getD "Admin access required") 401, []) ∧
    handle_create_user dup Option.none authErr uname pwd
        = (errResp (authErr.getD "Admin access required") 401, []) ∧
    handle_update_user Option.none authErr uidStr
        = (errResp (authErr.getD "Admin access required") 401, []) ∧
    handle_delete_user Option.none authErr uidStr
        = (errResp (authErr.getD "Admin access required") 401, []) ∧
    handle_change_password Option.none authErr uid npwd
        = (errResp (authErr.getD "Admin access required") 401, []) ∧
    handle_get_activity_logs Option.none authErr
        = (errResp (authErr.getD "Authentication required") 401, []) ∧
    (get_auth_user st users now Option.none).1 = Option.none ∧
    (∀ h, isPre ("Bearer ".data) h = false →
      (get_auth_user st users now (some h)).1 = Option.none) ∧
    (∀ h, isPre ("Bearer ".data) h = true →
      (validate_session st (String.mk (h.drop 7)) now).1 = Option.none →
      (get_auth_user st users now (some h)).1 = Option.none) ∧
    (∀ tok, tok ≠ "" →
      (st.sessions.map Prod.fst).Nodup →
      (∀ p ∈ st.sessions, p.1 = tok → p.2.expires_at < now) →
      (∀ p ∈ st.dbSessions, p.1 = tok → p.2.expires_at < now) →
      (validate_session st tok now).1 = Option.none) := by
  refine ⟨rfl, rfl, rfl, rfl, rfl, rfl, rfl, rfl, rfl, rfl, rfl, rfl, rfl, rfl,
    rfl, ?_, ?_, ?_⟩
  · intro h hb
    simp [get_auth_user, hb]
  · intro h hb hv
    simp [get_auth_user, hb, hv]
  · intro tok h1 hnodup hc hdb
    unfold validate_session
    rw [if_neg h1]
    cases hcl : alookup st.sessions tok with
    | some s =>
        have hmem := alookup_some_mem _ _ _ hcl
        have hexp : s.expires_at < now := hc (tok, s) hmem rfl
        dsimp only
        rw [if_neg (show ¬ now < s.expires_at by omega)]
        exact (validate_db_check_purged ⟨eraseKey st.sessions tok, st.dbSessions⟩ tok now
          (alookup_eraseKey_self st.sessions tok hnodup) hdb).1
    | none => exact (validate_db_check_purged st tok now hcl hdb).1

/-- Counterexample for C9 as stated: when the activity insert fails after
a successful delete, the handler's generic except clause answers a 500
error even though the file was removed, instead of the success the claim
requires. -/
theorem c9_log_failure_turns_success_into_500 :
    handle_delete 'G' c9fs (some "database is locked") (some someUser) Option.none
        "/doomed.txt"
      = (errResp "Failed to delete: database is locked" 500,
          [Effect.deleteFx ⟨WDrive.letter 'G', true, ["doomed.txt"]⟩]) ∧
    (errResp "Failed to delete: database is locked" 500).status ≠ 200 := by
  refine ⟨by decide, by decide⟩

/-- C9 as amended: in the delete, rename and create-folder handlers a
log_activity failure after the primary filesystem effect is caught by
the handler's generic exception handler and surfaced as a 500 error
response, with the primary effect already performed; the failure is not
swallowed.  (In the upload handler the error-logging attempt inside the
except clause re-raises instead.) -/
theorem c9_log_failure_escalates_to_500
    (d : Char) (fs : NTParsed → Option Bool) (u : User) (authErr : Option String)
    (e : String) (delPath old_path new_name_raw name_raw : String)
    (hdp : delPath ≠ "")
    (hdchk : startswith_drive d (resolveFull d delPath.data) = true)
    (hdex : (fs (resolveFull d delPath.data)).isNone = false)
    (hop : old_path ≠ "")
    (hrn : String.mk (pyStrip new_name_raw.data) ≠ "")
    (hrchk : startswith_drive d (resolveFull d old_path.data) = true)
    (hrex : (fs (resolveFull d old_path.data)).isNone = false)
    (hcn : String.mk (pyStrip name_raw.data) ≠ "")
    (hcchk : startswith_drive d (normpathP (joinP (rootParsed d)
      (parsePath (String.mk (pyStrip name_raw.data)).data))) = true)
    (hcex : (fs (normpathP (joinP (rootParsed d)
      (parsePath (String.mk (pyStrip name_raw.data)).data)))).isSome = false) :
    handle_delete d fs (some e) (some u) authErr delPath
        = (errResp ("Failed to delete: " ++ e) 500,
            [Effect.deleteFx (resolveFull d delPath.data)]) ∧
    handle_rename d fs (some e) (some u) authErr old_path new_name_raw
        = (errResp ("Failed to rename: " ++ e) 500,
            [Effect.renameFx (resolveFull d old_path.data)
              (joinP (dirnameP (resolveFull d old_path.data))
                (parsePath (String.mk (pyStrip new_name_raw.data)).data))]) ∧
    handle_create_folder d fs (some e) (some u) authErr "" name_raw
        = (errResp ("Failed to create folder: " ++ e) 500,
            [Effect.mkdirFx (normpathP (joinP (rootParsed d)
              (parsePath (String.mk (pyStrip name_raw.data)).data)))]) := by
  refine ⟨?_, ?_, ?_⟩
  · unfold handle_delete
    dsimp only
    rw [if_neg hdp, if_neg (by rw [hdchk]; simp), if_neg (by rw [hdex]; simp)]
  · unfold handle_rename
    dsimp only
    rw [if_neg (by intro hc; rcases hc with hc | hc; exact hop hc; exact hrn hc)]
    rw [if_neg (by rw [hrchk]; simp), if_neg (by rw [hrex]; simp)]
  · unfold handle_create_folder
    dsimp only
    rw [if_neg hcn]
    rw [if_neg (by simp : ¬ (("" : String) ≠ "" ∧ ("" : String) ≠ "/"))]
    rw [if_neg (by rw [hcchk]; simp), if_neg (by rw [hcex]; simp)]

/-- Witness for the amended C9: the concrete failing delete, applying the
theorem with every hypothesis discharged at the concrete inputs. -/
theorem c9_log_failure_escalates_to_500_witness :
    handle_delete 'G' c9fs (some "database is locked") (some someUser) Option.none
        "/doomed.txt"
      = (errResp ("Failed to delete: " ++ "database is locked") 500,
          [Effect.deleteFx (resolveFull 'G' (("/doomed.txt").data))]) :=
  (c9_log_failure_escalates_to_500 'G' c9fs someUser Option.none
    "database is locked" "/doomed.txt" "/docs/a.txt" "b.txt" "newdir"
    (by decide) (by decide) (by decide) (by decide) (by decide) (by decide)
    (by decide) (by decide) (by decide) (by decide)).1

/-- Helper for C10: any stored hash that does not split at the colon into
exactly two pieces makes verify_password return false through the except
clause. -/
theorem verify_password_malformed (pb : List Char → List Char → List Char)
    (pwd phash : List Char) (h : (splitOnChar ':' phash).length ≠ 2) :
    verify_password pb pwd phash = false := by
  unfold verify_password
  match hs : splitOnChar ':' phash with
  | [] => rfl
  | [a] => rfl
  | [a, b] => rw [hs] at h; simp at h
  | a :: b :: c :: t => rfl

/-- C10: password verification is total over the stored hash: a malformed
hash (not exactly salt colon digest) yields false rather than an
exception, and a login attempt against such a user row answers the
ordinary 401 Invalid credentials response with a login_failed audit
entry, not a 500. -/
theorem c10_malformed_hash_verifies_false_and_login_401
    (pb : List Char → List Char → List Char) (pwd phash : List Char)
    (st : ServerState) (users : List User) (now timeout : Nat) (ip tok : String)
    (uname pwdS : String) (row : User)
    (hsplit : (splitOnChar ':' phash).length ≠ 2)
    (hfind : users.find? (fun u => u.username == String.mk (pyStrip uname.data))
      = some row)
    (hrow : (splitOnChar ':' row.password_hash.data).length ≠ 2)
    (hun : String.mk (pyStrip uname.data) ≠ "")
    (hpw : pwdS ≠ "") :
    verify_password pb pwd phash = false ∧
    (handle_login st users now timeout ip tok pb uname pwdS).1
        = errResp "Invalid credentials" 401 ∧
    (handle_login st users now timeout ip tok pb uname pwdS).2.1
        = [Effect.logFx "login_failed"] := by
  have hvrow : verify_password pb pwdS.data row.password_hash.data = false :=
    verify_password_malformed pb pwdS.data row.password_hash.data hrow
  refine ⟨verify_password_malformed pb pwd phash hsplit, ?_, ?_⟩
  · unfold handle_login
    rw [if_neg (by intro hc; rcases hc with hc | hc; exact hun hc; exact hpw hc)]
    rw [hfind]
    dsimp only
    rw [hvrow]
    simp
  · unfold handle_login
    rw [if_neg (by intro hc; rcases hc with hc | hc; exact hun hc; exact hpw hc)]
    rw [hfind]
    dsimp only
    rw [hvrow]
    simp

/-- Witness for C10 at a hash with no colon at all. -/
theorem c10_malformed_hash_verifies_false_and_login_401_witness :
    verify_password (fun _ _ => []) (("x").data) (("deadbeef").data) = false ∧
    (handle_login ⟨[], []⟩ [c10row] 0 100 "ip" "tok" (fun _ _ => []) "admin" "x").1
        = errResp "Invalid credentials" 401 ∧
    (handle_login ⟨[], []⟩ [c10row] 0 100 "ip" "tok" (fun _ _ => []) "admin" "x").2.1
        = [Effect.logFx "login_failed"] :=
  c10_malformed_hash_verifies_false_and_login_401 (fun _ _ => []) (("x").data)
    (("deadbeef").data) ⟨[], []⟩ [c10row] 0 100 "ip" "tok" "admin" "x" c10row
    (by decide) (by decide) (by decide) (by decide) (by decide)

end Callao
